import Mathlib

/-! The OSL compiler driver and object-file serializer (`src/liboslcomp/oslcomp.cpp`)

A shallow embedding of `OSLCompilerImpl`: the error sink, the `compile()` driver, the
`write_oso_*` serializer and the `retrieve_source` cursor, followed by theorems about them.

Conventions of the embedding.

* The object file is written through `oso (fmt, ...)`, a `vfprintf`.  The text is kept as the
  sequence of its pieces (`Tok`): the literal characters of a format string, and one token for
  each conversion (`%s`, `%d`, `%g`, `%c`) holding the argument that was passed.
* `ASSERT` aborts the process.  A writer returns an `Emit`: the text written so far and whether
  the writer aborted.  Dereferencing a null pointer is treated as an abort as well.
* Declarations of `oslcomp_pvt.h` and of the AST/symbol headers are not part of the sources at
  hand; the types they declare are reconstructed from their uses in `oslcomp.cpp` and from the
  data model of the specification, as said at each definition.
-/

namespace OSL

/-! ## Data model -/

/-- Modelled from the spec: the enum `SymType` (declared in a header that is missing), the kinds
global, param, output-param, local, temp and const of the data model; `SymTypeFunction` and
`SymTypeType` stand for table entries that are not variables. -/
inductive SymType where
  | SymTypeParam
  | SymTypeOutputParam
  | SymTypeLocal
  | SymTypeTemp
  | SymTypeGlobal
  | SymTypeConst
  | SymTypeFunction
  | SymTypeType
deriving DecidableEq, Repr

/-- Modelled from the spec: the tag of a `TypeSpec`. -/
inductive BaseType where
  | int
  | float
  | string
  | point
  | vector
  | normal
  | color
  | matrix
  | struct (name : String)
  | unknown
deriving DecidableEq, Repr

/-- Modelled from the spec: `TypeSpec` (declared in a header that is missing): a tag, an array
length (0 = not an array) and the closure flag. -/
structure TypeSpec where
  base : BaseType
  arraylen : Nat
  closure : Bool
deriving DecidableEq, Repr

/-- Modelled from the spec: classification predicate `is_closure` of `TypeSpec`. -/
def TypeSpec.is_closure (t : TypeSpec) : Bool := t.closure

/-- Modelled from the spec: classification predicate `is_array` of `TypeSpec`. -/
def TypeSpec.is_array (t : TypeSpec) : Bool := t.arraylen != 0

/-- Modelled from the spec: classification predicate `is_int` of `TypeSpec`; it classifies the
tag (of the element, for an array) of a type that is not a closure. -/
def TypeSpec.is_int (t : TypeSpec) : Bool :=
  match t.base with
  | .int => !t.closure
  | _ => false

/-- Modelled from the spec: classification predicate `is_float` of `TypeSpec`. -/
def TypeSpec.is_float (t : TypeSpec) : Bool :=
  match t.base with
  | .float => !t.closure
  | _ => false

/-- Modelled from the spec: classification predicate `is_string` of `TypeSpec`. -/
def TypeSpec.is_string (t : TypeSpec) : Bool :=
  match t.base with
  | .string => !t.closure
  | _ => false

/-- Modelled from the spec: classification predicate `is_triple` of `TypeSpec`: point, vector,
normal and color share the 3-float layout. -/
def TypeSpec.is_triple (t : TypeSpec) : Bool :=
  match t.base with
  | .point => !t.closure
  | .vector => !t.closure
  | .normal => !t.closure
  | .color => !t.closure
  | _ => false

/-- Modelled from the spec: classification predicate `is_matrix` of `TypeSpec`. -/
def TypeSpec.is_matrix (t : TypeSpec) : Bool :=
  match t.base with
  | .matrix => !t.closure
  | _ => false

/-- A `ustring`: `none` is the default-constructed `ustring()` whose `c_str()` is `NULL`. -/
abbrev ustring := Option String

/-- A value of the C type `float`.  The file does no float arithmetic: a float comes from a
literal (`ofBits`, its bit pattern) or from the conversion of an `int` (`ofInt`), and goes to a
`%g` conversion. -/
inductive CFloat where
  | ofBits (bits : Nat)
  | ofInt (i : Int)
deriving DecidableEq, Repr

/-- Modelled from the spec: an `ASTliteral` node (its class is declared in a header that is
missing): its type and the typed value accessors `intval()`, `floatval()`, `strval()`. -/
structure ASTliteral where
  typespec : TypeSpec
  intval : Int
  floatval : CFloat
  strval : ustring
deriving DecidableEq, Repr

/-- Modelled from the spec: the literal value of a `ConstantSymbol` (declared in a header that
is missing): the accessors `strval()`, `intval()`, `floatval()`. -/
structure ConstantSymbol where
  strval : ustring
  intval : Int
  floatval : CFloat
deriving DecidableEq, Repr

mutual
/-- Modelled from the spec: a `Symbol` of the table (declared in a header that is missing):
names, type, kind, the declaring node (`node()`, may be null), the `ConstantSymbol` part when
the object is one (`dynamic_cast`), and the alias it stands for. -/
inductive Symbol where
  | mk (name : String) (mangled : String) (typespec : TypeSpec) (symtype : SymType)
      (node : Option ASTNode) (constant : Option ConstantSymbol) (aliased : Option Symbol)
/-- Modelled from the spec: an `ASTNode` (declared in a header that is missing), by its
run-time kind: a literal, a variable declaration (its symbol, the list of initializers linked
by `next()`, the list of metadata nodes), or any other node. -/
inductive ASTNode where
  | literal_node (lit : ASTliteral)
  | variable_declaration_node (sym : Option Symbol) (init : List ASTNode) (meta : List ASTNode)
  | other_node (nodetypename : String)
end

/-- `Symbol::name()` -/
def Symbol.name : Symbol → String
  | .mk n _ _ _ _ _ _ => n

/-- `Symbol::mangled()` -/
def Symbol.mangled : Symbol → String
  | .mk _ m _ _ _ _ _ => m

/-- `Symbol::typespec()` -/
def Symbol.typespec : Symbol → TypeSpec
  | .mk _ _ t _ _ _ _ => t

/-- `Symbol::symtype()` -/
def Symbol.symtype : Symbol → SymType
  | .mk _ _ _ k _ _ _ => k

/-- `Symbol::node()` -/
def Symbol.node : Symbol → Option ASTNode
  | .mk _ _ _ _ n _ _ => n

/-- `dynamic_cast<const ConstantSymbol *>(sym)` -/
def Symbol.as_constant : Symbol → Option ConstantSymbol
  | .mk _ _ _ _ _ c _ => c

/-- Modelled from the spec: `Symbol::dealias()` (defined in a header that is missing) resolves
a symbol through the alias relation to its canonical representative. -/
def Symbol.dealias : Symbol → Symbol
  | .mk n m t k nd c none => .mk n m t k nd c none
  | .mk _ _ _ _ _ _ (some a) => a.dealias

/-- An `ASTvariable_declaration` node: `sym()`, `init()` and `meta()`. -/
structure ASTvariable_declaration where
  sym : Option Symbol
  init : List ASTNode
  meta : List ASTNode

/-- `dynamic_cast<ASTvariable_declaration *>(node)` -/
def ASTNode.as_variable_declaration : ASTNode → Option ASTvariable_declaration
  | .variable_declaration_node s i m => some ⟨s, i, m⟩
  | _ => none

/-- `dynamic_cast<ASTliteral *>(node)`; it succeeds exactly when
`node->nodetype() == ASTNode::literal_node`. -/
def ASTNode.as_literal : ASTNode → Option ASTliteral
  | .literal_node l => some l
  | _ => none

/-! ## The text of the object file -/

/-- One piece of the text written by `oso`. -/
inductive Tok where
  | lit (s : String)
  | fmt_s (arg : ustring)
  | fmt_d (arg : Int)
  | fmt_g (arg : CFloat)
  | fmt_c (arg : Char)
  | shortname (k : SymType)
  | typestr (t : TypeSpec)
deriving DecidableEq, Repr

/-- What a writer did: the text it wrote and whether it ended in an abort. -/
structure Emit where
  text : List Tok
  aborted : Bool
deriving DecidableEq, Repr

/-- The writer that writes nothing. -/
def Emit.nil : Emit := ⟨[], false⟩

/-- One call `oso (fmt, ...)`. -/
def oso (toks : List Tok) : Emit := ⟨toks, false⟩

/-- A failed `ASSERT`, or a null pointer dereference. -/
def Emit.abort : Emit := ⟨[], true⟩

/-- Sequential composition: `b` runs only if `a` did not abort. -/
def Emit.seq (a b : Emit) : Emit :=
  if a.aborted then a else ⟨a.text ++ b.text, b.aborted⟩

/-! ## The serializer of symbols -/

/-- `OSLCompilerImpl::write_oso_metadata` -/
def write_oso_metadata (metanode : ASTNode) : Emit :=
  match metanode.as_variable_declaration with
  | none => Emit.abort
  | some metavar =>
    match metavar.sym with
    | none => Emit.abort
    | some metasym =>
      let ts := metasym.typespec
      (oso [.lit "%meta\x7b", .typestr ts, .lit ",", .fmt_s (some metasym.name), .lit ","]).seq
        (match metavar.init.head? with
         | none => Emit.abort
         | some init =>
           (match ts.is_string, ts.is_int, ts.is_float, init.as_literal with
            | true, _, _, some l => oso [.lit "\"", .fmt_s l.strval, .lit "\""]
            | false, true, _, some l => oso [.fmt_d l.intval]
            | false, false, true, some l => oso [.fmt_g l.floatval]
            | _, _, _, _ => Emit.abort).seq
           (oso [.lit "\x7d "]))

/-- `OSLCompilerImpl::write_oso_const_value`, applied to
`dynamic_cast<const ConstantSymbol *>(sym)`. -/
def write_oso_const_value (sym : Symbol) : Emit :=
  match sym.as_constant with
  | none => Emit.abort
  | some c =>
    if sym.typespec.is_string then oso [.lit "\"", .fmt_s c.strval, .lit "\""]
    else if sym.typespec.is_int then oso [.fmt_d c.intval]
    else if sym.typespec.is_float then oso [.fmt_g c.floatval]
    else Emit.abort

/-- The scalar `f` that the triple and matrix branches of `write_oso_formal_default` compute
from the initializer. -/
def scalar_fill (lit : Option ASTliteral) : CFloat :=
  match lit with
  | some l =>
    if l.typespec.is_int then CFloat.ofInt l.intval
    else if l.typespec.is_float then l.floatval
    else CFloat.ofInt 0
  | none => CFloat.ofInt 0

/-- The body of the loop of `write_oso_formal_default`, for one initializer node. -/
def write_oso_formal_default_init (type : TypeSpec) (init : ASTNode) : Emit :=
  let lit := init.as_literal
  if type.is_int then
    match lit with
    | some l => if l.typespec.is_int then oso [.fmt_d l.intval, .lit " "] else oso [.lit "0 "]
    | none => oso [.lit "0 "]
  else if type.is_float then
    match lit with
    | some l =>
      if l.typespec.is_int then oso [.fmt_d l.intval, .lit " "]
      else if l.typespec.is_float then oso [.fmt_g l.floatval, .lit " "]
      else oso [.lit "0 "]
    | none => oso [.lit "0 "]
  else if type.is_triple then
    let f := scalar_fill lit
    oso [.fmt_g f, .lit " ", .fmt_g f, .lit " ", .fmt_g f, .lit " "]
  else if type.is_matrix then
    let f := scalar_fill lit
    oso [.fmt_g f, .lit " ", .fmt_g f, .lit " ", .fmt_g f, .lit " ", .fmt_g f, .lit " ",
         .fmt_g f, .lit " ", .fmt_g f, .lit " ", .fmt_g f, .lit " ", .fmt_g f, .lit " ",
         .fmt_g f, .lit " ", .fmt_g f, .lit " ", .fmt_g f, .lit " ", .fmt_g f, .lit " ",
         .fmt_g f, .lit " ", .fmt_g f, .lit " ", .fmt_g f, .lit " ", .fmt_g f, .lit " "]
  else if type.is_string then
    match lit with
    | some l =>
      if l.typespec.is_string then oso [.lit "\"", .fmt_s l.strval, .lit "\" "]
      else oso [.lit "\"\" "]
    | none => oso [.lit "\"\" "]
  else Emit.abort

/-- The loop of `write_oso_formal_default` over the initializers `init, init->next(), ...`. -/
def write_oso_formal_default_loop (type : TypeSpec) : List ASTNode → Emit
  | [] => Emit.nil
  | init :: rest =>
    (write_oso_formal_default_init type init).seq (write_oso_formal_default_loop type rest)

/-- `OSLCompilerImpl::write_oso_formal_default` -/
def write_oso_formal_default (node : ASTvariable_declaration) : Emit :=
  match node.sym with
  | none => Emit.abort
  | some sym => write_oso_formal_default_loop sym.typespec node.init

/-- The metadata loop of `write_oso_symbol`; `hints` counts the entries already written. -/
def write_oso_symbol_meta : Nat → List ASTNode → Emit
  | _, [] => Emit.nil
  | hints, m :: rest =>
    ((if hints = 0 then oso [.lit "\t"] else Emit.nil).seq (write_oso_metadata m)).seq
      (write_oso_symbol_meta (hints + 1) rest)

/-- `OSLCompilerImpl::write_oso_symbol` -/
def write_oso_symbol (sym : Symbol) : Emit :=
  let v : Option ASTvariable_declaration := sym.node.bind ASTNode.as_variable_declaration
  (oso [.shortname sym.symtype, .lit "\t", .typestr sym.typespec, .lit "\t",
        .fmt_s (some sym.mangled)]).seq
  ((if sym.symtype = SymType.SymTypeConst then
      (oso [.lit "\t"]).seq ((write_oso_const_value sym).seq (oso [.lit "\t"]))
    else
      match v with
      | some vd =>
        if sym.symtype = SymType.SymTypeParam ∨ sym.symtype = SymType.SymTypeOutputParam then
          (oso [.lit "\t"]).seq ((write_oso_formal_default vd).seq (oso [.lit "\t"]))
        else Emit.nil
      | none => Emit.nil).seq
   ((match v with
     | some vd => write_oso_symbol_meta 0 vd.meta
     | none => Emit.nil).seq
    (oso [.lit "\n"])))

/-! ## The compiler object and its environment -/

/-- Modelled from the spec: the node an instruction came from (`IROpcode::node()`), by what the
serializer reads of it: `sourcefile()` and `sourceline()`. -/
structure OpNode where
  sourcefile : ustring
  sourceline : Int
deriving DecidableEq, Repr

/-- Modelled from the spec: an `IROpcode` (declared in a header that is missing): mnemonic,
code block, operands, the `max_jumps` jump slots (-1 = unset), originating node. -/
structure IROpcode where
  opname : String
  method : ustring
  args : List Symbol
  jumps : List Int
  node : Option OpNode

/-- Modelled from the spec: an `ASTshader_declaration` (declared in a header that is missing):
`shadertypename()` and `shadername()`. -/
structure ASTshader_declaration where
  shadertypename : String
  shadername : ustring
deriving DecidableEq, Repr

/-- The root node `m_shader`, by its run-time kind. -/
inductive ShaderNode where
  | shader_declaration (d : ASTshader_declaration)
  | other_node
deriving DecidableEq, Repr

/-- An open `FILE *` in read mode: the bytes of the file and the bytes not yet read. -/
structure FILE where
  content : List Char
  rest : List Char
deriving DecidableEq, Repr

/-- The steps of `compile()` after preprocessing. -/
inductive Stage where
  | parse
  | typecheck
  | codegen
  | serialize
deriving DecidableEq, Repr

/-- An entry of the execution trace: a stage was started, or `error()` was called. -/
inductive Event where
  | stage (s : Stage)
  | error
deriving DecidableEq, Repr

/-- The address of a compiler object. -/
abbrev Ptr := Nat

/-- The state `compile()` acts on.  The `m_` fields are the members of `OSLCompilerImpl`
(`m_symtab` is the ordered symbol sequence `symbegin() .. symend()`, `m_osofile` says whether
the handle is non-null).  The others are the state of the process: the global `oslcompiler`,
the lines printed on `stderr`, the object files written so far, and a trace of the stages
started and of the calls of `error()`, kept for stating properties. -/
structure OSLCompilerImpl where
  m_err : Bool
  m_verbose : Bool
  m_debug : Bool
  m_symtab : List Symbol
  m_shader : Option ShaderNode
  m_ircode : List IROpcode
  m_osofile : Bool
  m_sourcefile : Option FILE
  m_last_sourcefile : ustring
  m_last_sourceline : Int
  oslcompiler : Option Ptr
  stderr : List String
  osofiles : List (String × List Tok)
  trace : List Event

/-- A call of `error()` or `warning()`: file, line and the formatted message (`none` when the
format is null). -/
inductive Diag where
  | error (filename : ustring) (line : Int) (msg : Option String)
  | warning (filename : ustring) (line : Int) (msg : Option String)
deriving DecidableEq, Repr

/-- What an external stage (`oslparse`, `typecheck`, `codegen`) did: the calls of `error()` and
`warning()` it made, in order, and the tree, symbol sequence and instructions it left. -/
structure StageResult where
  diags : List Diag
  m_shader : Option ShaderNode
  m_symtab : List Symbol
  m_ircode : List IROpcode

/-- The collaborators of the driver that lie outside `oslcomp.cpp`: whether the preprocessor
pipe of a command opens, the three stages, whether a file opens for writing, the source files
that open for reading (with their bytes), and the indeterminate initial contents of the
uninitialized line buffer of `retrieve_source`, per instruction index. -/
structure Env where
  pipe_opens : String → Bool
  oslparse : String → OSLCompilerImpl → StageResult
  typecheck : OSLCompilerImpl → StageResult
  codegen : OSLCompilerImpl → StageResult
  fopen_w : String → Bool
  fopen_r : String → Option (List Char)
  uninit_buf : Nat → List Char

namespace OSLCompilerImpl

/-- Modelled from the spec: `error_encountered()` (defined in a header that is missing) reads
the sticky error flag. -/
def error_encountered (c : OSLCompilerImpl) : Bool := c.m_err

/-- `shader()`: the raw pointer held by `m_shader` -/
def shader (c : OSLCompilerImpl) : Option ShaderNode := c.m_shader

/-- `shader_decl()`: `dynamic_cast<ASTshader_declaration *>(m_shader.get())` -/
def shader_decl (c : OSLCompilerImpl) : Option ASTshader_declaration :=
  match c.m_shader with
  | some (.shader_declaration d) => some d
  | _ => none

/-- `OSLCompilerImpl::error`: prints the message and sets `m_err`; the call is entered in the
trace. -/
def error (c : OSLCompilerImpl) (filename : ustring) (line : Int) (msg : Option String) :
    OSLCompilerImpl :=
  let errmsg := match msg with
    | some m => m
    | none => "syntax error"
  let out := match filename with
    | some f => f ++ ":" ++ toString line ++ ": error: " ++ errmsg ++ "\n"
    | none => "error: " ++ errmsg ++ "\n"
  { c with stderr := c.stderr ++ [out], m_err := true, trace := c.trace ++ [Event.error] }

/-- `OSLCompilerImpl::warning` -/
def warning (c : OSLCompilerImpl) (filename : ustring) (line : Int) (msg : Option String) :
    OSLCompilerImpl :=
  let errmsg := match msg with
    | some m => m
    | none => ""
  let out := filename.getD "(null)" ++ ":" ++ toString line ++ ": warning: " ++ errmsg ++ "\n"
  { c with stderr := c.stderr ++ [out] }

/-- `OSLCompilerImpl::output_filename` -/
def output_filename (c : OSLCompilerImpl) (_inputfilename : String) : String :=
  match c.shader_decl with
  | some d => d.shadername.getD "" ++ ".oso"
  | none => ""

end OSLCompilerImpl

/-! ## The source cursor -/

/-- The newline character. -/
def newline : Char := Char.ofNat 10

/-- The character that terminates a C string. -/
def NUL : Char := Char.ofNat 0

/-- The characters `fgets` stores when it may store at most `n`: up to and including the first
newline; returns them with the unread rest. -/
def fgets_chars : Nat → List Char → List Char × List Char
  | 0, rest => ([], rest)
  | _ + 1, [] => ([], [])
  | n + 1, ch :: rest =>
    if ch = newline then ([ch], rest)
    else ((fgets_chars n rest).1.cons ch, (fgets_chars n rest).2)

/-- `fgets (buf, size, f)`: `none` at end of file (the buffer is left as it was), else the
characters stored before the terminating NUL, and the advanced stream. -/
def fgets (size : Nat) (f : FILE) : Option (List Char × FILE) :=
  match f.rest with
  | [] => none
  | _ :: _ => some ((fgets_chars (size - 1) f.rest).1, { f with rest := (fgets_chars (size - 1) f.rest).2 })

/-- The loop `while (m_last_sourceline < line) { fgets (buf, sizeof(buf), m_sourcefile);
++m_last_sourceline; }` for `n = line - m_last_sourceline` rounds. -/
def read_lines : Nat → List Char → FILE → List Char × FILE
  | 0, buf, f => (buf, f)
  | n + 1, buf, f =>
    match fgets 10240 f with
    | none => read_lines n buf f
    | some r => read_lines n r.1 r.2

/-- The C string held by a buffer: its characters before the first NUL. -/
def c_str (buf : List Char) : List Char := buf.takeWhile (fun ch => ch ≠ NUL)

/-- The end of `retrieve_source`: strip the trailing newline and build the `std::string`.
(On an empty string the test reads `buf[-1]`; whatever it finds, the string stays empty.) -/
def strip_newline (buf : List Char) : String :=
  if (c_str buf).getLast? = some newline then String.mk (c_str buf).dropLast
  else String.mk (c_str buf)

namespace OSLCompilerImpl

/-- The second half of `retrieve_source`, from "If we want something *before* the last line
read in the open file, rewind to the beginning" on.  `buf0` is the indeterminate initial
content of the local `buf`.  The result is `none` when a null `m_sourcefile` is passed to
`rewind` or `fgets`. -/
def retrieve_source_read (c : OSLCompilerImpl) (buf0 : List Char) (line : Int) :
    Option (String × OSLCompilerImpl) :=
  match c.m_sourcefile with
  | none =>
    if c.m_last_sourceline > line then none
    else if c.m_last_sourceline < line then none
    else some (strip_newline buf0, c)
  | some f =>
    let f1 : FILE := if c.m_last_sourceline > line then { f with rest := f.content } else f
    let last1 : Int := if c.m_last_sourceline > line then 0 else c.m_last_sourceline
    some (strip_newline (read_lines (line - last1).toNat buf0 f1).1,
          { c with m_sourcefile := some (read_lines (line - last1).toNat buf0 f1).2,
                   m_last_sourceline := if last1 < line then line else last1 })

/-- `OSLCompilerImpl::retrieve_source`.  `buf0` is the indeterminate initial content of the
local `buf`.  The result is `none` when the call passes a null pointer to `fopen`, `rewind` or
`fgets`. -/
def retrieve_source (c : OSLCompilerImpl) (env : Env) (buf0 : List Char) (filename : ustring)
    (line : Int) : Option (String × OSLCompilerImpl) :=
  if filename ≠ c.m_last_sourcefile then
    match filename with
    | none => none
    | some path =>
      match env.fopen_r path with
      | none => some ("<not found>", { c with m_sourcefile := none, m_last_sourcefile := none })
      | some content =>
        retrieve_source_read
          { c with m_sourcefile := some ⟨content, content⟩, m_last_sourcefile := filename }
          buf0 line
  else retrieve_source_read c buf0 line

end OSLCompilerImpl

/-! ## The serializer of the compiled unit -/

/-- The tab character, passed to `%c` before the first hint. -/
def tab : Char := Char.ofNat 9

/-- The space character, passed to `%c` before a later hint. -/
def space : Char := Char.ofNat 32

/-- The loop over the register arguments of an instruction. -/
def write_oso_op_args : List Symbol → Emit
  | [] => Emit.nil
  | a :: rest => (oso [.fmt_s (some a.dealias.mangled), .lit " "]).seq (write_oso_op_args rest)

/-- The loop over the jump target slots of an instruction. -/
def write_oso_op_jumps : List Int → Emit
  | [] => Emit.nil
  | j :: rest => (if j ≥ 0 then oso [.fmt_d j, .lit " "] else Emit.nil).seq (write_oso_op_jumps rest)

/-- The `%filename` hint of an instruction with node `nd`, given `lastfile`. -/
def write_oso_op_filename (nd : OpNode) (lastfile : ustring) : Emit :=
  if nd.sourcefile ≠ lastfile then
    oso [.fmt_c tab, .lit "%filename\x7b\"", .fmt_s nd.sourcefile, .lit "\"\x7d"]
  else Emit.nil

/-- The `%line` hint of an instruction with node `nd`, given `lastline`; `firsthint` says
whether no hint was written before it. -/
def write_oso_op_line (nd : OpNode) (lastline : Int) (firsthint : Bool) : Emit :=
  if nd.sourceline ≠ lastline then
    oso [.fmt_c (if firsthint then tab else space), .lit "%line\x7b", .fmt_d nd.sourceline,
         .lit "\x7d"]
  else Emit.nil

/-- The part of the loop body of `write_oso_file` that writes the instruction itself: op name,
register arguments, jump targets, hints and the end of line. -/
def write_oso_op (op : IROpcode) (lastfile : ustring) (lastline : Int) : Emit :=
  (oso [.lit "\t", .fmt_s (some op.opname)]).seq
  ((if op.args.length ≠ 0 then
      oso [.lit (if op.opname.utf8ByteSize < 8 then "\t\t" else "\t")]
    else Emit.nil).seq
  ((write_oso_op_args op.args).seq
  ((write_oso_op_jumps op.jumps).seq
  ((match op.node with
    | some nd =>
      (write_oso_op_filename nd lastfile).seq
        (write_oso_op_line nd lastline (decide (nd.sourcefile = lastfile)))
    | none => Emit.nil).seq
  (oso [.lit "\n"])))))

/-- The debug part of the loop body of `write_oso_file`: `if (m_debug && op->node()) ...`, the
comment with the source line; `none` when `retrieve_source` does not return. -/
def write_oso_source_comment (env : Env) (c : OSLCompilerImpl) (idx : Nat) (op : IROpcode)
    (lastfile : ustring) (lastline : Int) : Option (Emit × OSLCompilerImpl) :=
  match c.m_debug, op.node with
  | true, some nd =>
    if nd.sourcefile ≠ lastfile ∨ nd.sourceline ≠ lastline then
      match c.retrieve_source env (env.uninit_buf idx) nd.sourcefile nd.sourceline with
      | none => none
      | some r =>
        some (oso [.lit "# ", .fmt_s nd.sourcefile, .lit ":", .fmt_d nd.sourceline,
                   .lit "\n# ", .fmt_s (some r.1), .lit "\n"], r.2)
    else some (Emit.nil, c)
  | _, _ => some (Emit.nil, c)

/-- The loop of `write_oso_file` over `m_ircode`; `idx` is the index of the next instruction,
`lastline`, `lastfile` and `lastmethod` are the locals of the same names, and the compiler
object is threaded for the source cursor. -/
def write_oso_code (env : Env) :
    List IROpcode → Nat → Int → ustring → ustring → OSLCompilerImpl → Emit × OSLCompilerImpl
  | [], _, _, _, _, c => (Emit.nil, c)
  | op :: rest, idx, lastline, lastfile, lastmethod, c =>
    let label := if lastmethod ≠ op.method
      then oso [.lit "code ", .fmt_s op.method, .lit "\n"] else Emit.nil
    let lastfile1 : ustring := if lastmethod ≠ op.method then none else lastfile
    let lastline1 : Int := if lastmethod ≠ op.method then -1 else lastline
    match write_oso_source_comment env c idx op lastfile1 lastline1 with
    | none => (label.seq Emit.abort, c)
    | some d =>
      let lastfile2 : ustring := match op.node with
        | some nd => nd.sourcefile
        | none => lastfile1
      let lastline2 : Int := match op.node with
        | some nd => nd.sourceline
        | none => lastline1
      let r := write_oso_code env rest (idx + 1) lastline2 lastfile2 op.method d.2
      (label.seq (d.1.seq ((write_oso_op op lastfile1 lastline1).seq r.1)), r.2)

/-- The first loop over the symbol table of `write_oso_file`: "Output params, so they are
first". -/
def write_oso_params : List Symbol → Emit
  | [] => Emit.nil
  | s :: rest =>
    if s.symtype = SymType.SymTypeParam ∨ s.symtype = SymType.SymTypeOutputParam then
      (write_oso_symbol s).seq (write_oso_params rest)
    else write_oso_params rest

/-- The second loop over the symbol table of `write_oso_file`: "Output globals, locals, temps,
const". -/
def write_oso_nonparams : List Symbol → Emit
  | [] => Emit.nil
  | s :: rest =>
    if s.symtype = SymType.SymTypeLocal ∨ s.symtype = SymType.SymTypeTemp ∨
        s.symtype = SymType.SymTypeGlobal ∨ s.symtype = SymType.SymTypeConst then
      (write_oso_symbol s).seq (write_oso_nonparams rest)
    else write_oso_nonparams rest

/-- The header lines of `write_oso_file`, up to the end of the shader line. -/
def write_oso_header (c : OSLCompilerImpl) : Emit :=
  (oso [.lit "OpenShadingLanguage 0.0\n"]).seq
  ((oso [.lit "# Compiled by oslc FIXME-VERSION\n"]).seq
  ((match c.shader_decl with
    | some shaderdecl => oso [.fmt_s (some shaderdecl.shadertypename), .lit " ",
                              .fmt_s shaderdecl.shadername]
    | none => Emit.abort).seq
  (oso [.lit "\n"])))

/-- What `write_oso_file` returns to its caller: the state it leaves, the text it wrote to the
object file (nothing when the file did not open) and whether it aborted. -/
structure WriteResult where
  state : OSLCompilerImpl
  text : List Tok
  aborted : Bool

/-- The name `lastmethod` starts with. -/
def uninitialized_method : ustring := some "___uninitialized___"

namespace OSLCompilerImpl

/-- Everything `write_oso_file` writes between `fopen` and `fclose`. -/
def write_oso_body (c : OSLCompilerImpl) (env : Env) : Emit × OSLCompilerImpl :=
  let pre := (write_oso_header c).seq
    ((write_oso_params c.m_symtab).seq (write_oso_nonparams c.m_symtab))
  if pre.aborted then (pre, c)
  else
    let code := write_oso_code env c.m_ircode 0 (-1) none uninitialized_method c
    (pre.seq (code.1.seq (oso [.lit "\tend\n"])), code.2)

/-- `OSLCompilerImpl::write_oso_file` -/
def write_oso_file (c : OSLCompilerImpl) (env : Env) (outfilename : String) : WriteResult :=
  if c.m_osofile then ⟨c, [], true⟩
  else if env.fopen_w outfilename = false then
    ⟨c.error none 0 (some ("Could not open \"" ++ outfilename ++ "\"")), [], false⟩
  else
    let r := write_oso_body { c with m_osofile := true } env
    if r.1.aborted then
      ⟨{ r.2 with osofiles := c.osofiles ++ [(outfilename, r.1.text)] }, r.1.text, true⟩
    else
      ⟨{ r.2 with m_osofile := false, osofiles := c.osofiles ++ [(outfilename, r.1.text)] },
       r.1.text, false⟩

/-! ## The driver -/

/-- The loop of `compile()` over the options: sets the modes and builds the command. -/
def compile_options : List String → OSLCompilerImpl → String → OSLCompilerImpl × String
  | [], c, cppcommand => (c, cppcommand)
  | o :: rest, c, cppcommand =>
    if o = "-v" then compile_options rest { c with m_verbose := true } cppcommand
    else if o = "-d" then compile_options rest { c with m_debug := true } cppcommand
    else compile_options rest c (cppcommand ++ "\"" ++ o ++ "\" ")

/-- One reported diagnostic: the call of `error()` or of `warning()` it stands for. -/
def report (c : OSLCompilerImpl) : Diag → OSLCompilerImpl
  | .error f l m => c.error f l m
  | .warning f l m => c.warning f l m

/-- Run an external stage: it is entered in the trace, leaves its tree, symbols and
instructions, and reports its diagnostics through `error()` and `warning()`. -/
def run_stage (c : OSLCompilerImpl) (s : Stage) (r : StageResult) : OSLCompilerImpl :=
  r.diags.foldl report
    { c with m_shader := r.m_shader, m_symtab := r.m_symtab, m_ircode := r.m_ircode,
             trace := c.trace ++ [Event.stage s] }

/-- `if (! error_encountered()) oslcompiler->shader()->typecheck ();`
(`none`: the call goes through a null `shader()`). -/
def compile_typecheck (c : OSLCompilerImpl) (env : Env) : Option OSLCompilerImpl :=
  if c.error_encountered = false then
    match c.shader with
    | none => none
    | some _ => some (run_stage c Stage.typecheck (env.typecheck c))
  else some c

/-- `if (m_debug) { oslcompiler->symtab().print (); oslcompiler->shader()->print (std::cout); }`
(`none`: the call goes through a null `shader()`). -/
def compile_debug_print (c : OSLCompilerImpl) : Option OSLCompilerImpl :=
  if c.m_debug then
    match c.shader with
    | none => none
    | some _ => some c
  else some c

/-- `if (! error_encountered()) oslcompiler->shader()->codegen ();` -/
def compile_codegen (c : OSLCompilerImpl) (env : Env) : Option OSLCompilerImpl :=
  if c.error_encountered = false then
    match c.shader with
    | none => none
    | some _ => some (run_stage c Stage.codegen (env.codegen c))
  else some c

/-- `if (! error_encountered()) { outname = output_filename (filename);
write_oso_file (outname); }` (`none`: `write_oso_file` aborted). -/
def compile_serialize (c : OSLCompilerImpl) (env : Env) (filename : String) :
    Option OSLCompilerImpl :=
  if c.error_encountered = false then
    let r := write_oso_file { c with trace := c.trace ++ [Event.stage Stage.serialize] } env
      (c.output_filename filename)
    if r.aborted then none else some r.state
  else some c

/-- The fixed beginning of the preprocessor command. -/
def cpp_prefix_text : String := "/usr/bin/cpp -xc -nostdinc "

/-- The preprocessor command `cppcommand` that `compile()` passes to `popen`. -/
def cppcommand (c : OSLCompilerImpl) (filename : String) (options : List String) : String :=
  (compile_options options c cpp_prefix_text).2 ++ "\"" ++ filename ++ "\" "

/-- `OSLCompilerImpl::compile`, called on the object at address `this`.  The result is `none`
when the process dies inside the call, else the returned `bool` and the state left. -/
def compile (c : OSLCompilerImpl) (env : Env) (this : Ptr) (filename : String)
    (options : List String) : Option (Bool × OSLCompilerImpl) :=
  let o := compile_options options c cpp_prefix_text
  if env.pipe_opens (cppcommand c filename options) then
    let c1 := run_stage { o.1 with oslcompiler := some this } Stage.parse
      (env.oslparse (cppcommand c filename options) { o.1 with oslcompiler := some this })
    match compile_typecheck c1 env with
    | none => none
    | some c2 =>
      match compile_debug_print c2 with
      | none => none
      | some c3 =>
        match compile_codegen c3 env with
        | none => none
        | some c4 =>
          match compile_serialize c4 env filename with
          | none => none
          | some c5 =>
            some (!(error_encountered { c5 with oslcompiler := none }),
                  { c5 with oslcompiler := none })
  else some (!o.1.error_encountered, o.1)

end OSLCompilerImpl

/-! ## Definitions that follow the words of the specification -/

/-- The encoding of one literal initializer `l` of a declaration of type `type`, as the
specification lists it: int, a decimal integer; float, a float (an int literal keeps its
decimal form); triple, three floats filled with the scalar; matrix, sixteen floats filled with
the scalar; string, the quoted text; with the zero (or empty) fallback when the literal does
not fit the type. -/
def spec_default_encoding (type : TypeSpec) (l : ASTliteral) : List Tok :=
  match type.closure, type.base with
  | false, .int => if l.typespec.is_int then [.fmt_d l.intval, .lit " "] else [.lit "0 "]
  | false, .float =>
    if l.typespec.is_int then [.fmt_d l.intval, .lit " "]
    else if l.typespec.is_float then [.fmt_g l.floatval, .lit " "]
    else [.lit "0 "]
  | false, .string =>
    if l.typespec.is_string then [.lit "\"", .fmt_s l.strval, .lit "\" "] else [.lit "\"\" "]
  | false, .matrix => (List.replicate 16 [Tok.fmt_g (scalar_fill (some l)), Tok.lit " "]).flatten
  | false, .struct _ => []
  | false, .unknown => []
  | false, _ => (List.replicate 3 [Tok.fmt_g (scalar_fill (some l)), Tok.lit " "]).flatten
  | true, _ => []

/-- A matrix parameter `matrix m = 2` (an int literal). -/
def example_matrix_decl : ASTvariable_declaration :=
  ⟨some (.mk "m" "m" ⟨.matrix, 0, false⟩ .SymTypeParam none none none),
   [.literal_node ⟨⟨.int, 0, false⟩, 2, .ofInt 0, none⟩], []⟩

/-- A triple parameter whose single initializer is not a literal. -/
def example_color_decl : ASTvariable_declaration :=
  ⟨some (.mk "c" "c" ⟨.color, 0, false⟩ .SymTypeParam none none none),
   [.other_node "type_constructor"], []⟩

/-- An array parameter `color c[2] = { 1, 2 }`. -/
def example_color_array_decl : ASTvariable_declaration :=
  ⟨some (.mk "c" "c" ⟨.color, 2, false⟩ .SymTypeParam none none none),
   [.literal_node ⟨⟨.int, 0, false⟩, 1, .ofInt 0, none⟩,
    .literal_node ⟨⟨.int, 0, false⟩, 2, .ofInt 0, none⟩], []⟩

/-- An array parameter of a struct type with one literal initializer. -/
def example_struct_array_decl : ASTvariable_declaration :=
  ⟨some (.mk "k" "k" ⟨.struct "S", 2, false⟩ .SymTypeParam none none none),
   [.literal_node ⟨⟨.int, 0, false⟩, 0, .ofInt 0, none⟩], []⟩

/-- An array parameter `float a[2] = { 1, 2.5 }`. -/
def example_float_array_decl : ASTvariable_declaration :=
  ⟨some (.mk "a" "a" ⟨.float, 2, false⟩ .SymTypeParam none none none),
   [.literal_node ⟨⟨.int, 0, false⟩, 1, .ofInt 0, none⟩,
    .literal_node ⟨⟨.float, 0, false⟩, 0, .ofBits 1075838976, none⟩], []⟩

/-- The kinds selected by the first scan of the symbol sequence: param and output-param. -/
def SymType.is_param_kind (k : SymType) : Bool :=
  match k with
  | .SymTypeParam => true
  | .SymTypeOutputParam => true
  | _ => false

/-- The kinds selected by the second scan of the symbol sequence: local, temp, global, const. -/
def SymType.is_nonparam_kind (k : SymType) : Bool :=
  match k with
  | .SymTypeLocal => true
  | .SymTypeTemp => true
  | .SymTypeGlobal => true
  | .SymTypeConst => true
  | _ => false

/-- The order of the symbol records as the specification words it: the table sequence filtered
to the kinds param and output-param, followed by the table sequence filtered to the kinds
local, temp, global and const. -/
def spec_symbol_order (syms : List Symbol) : List Symbol :=
  syms.filter (fun s => s.symtype.is_param_kind) ++
    syms.filter (fun s => s.symtype.is_nonparam_kind)

/-- One record after the other for the symbols of a list, in list order. -/
def write_oso_records : List Symbol → Emit
  | [] => Emit.nil
  | s :: rest => (write_oso_symbol s).seq (write_oso_records rest)

/-- A text holds no beginning of a symbol record (no `symtype_shortname()` field). -/
def no_record_start (l : List Tok) : Prop := ∀ k, Tok.shortname k ∉ l

/-- An environment in which no stage does anything, every file opens for writing and no
source file exists. -/
def example_env : Env where
  pipe_opens := fun _ => true
  oslparse := fun _ c => ⟨[], c.m_shader, c.m_symtab, c.m_ircode⟩
  typecheck := fun c => ⟨[], c.m_shader, c.m_symtab, c.m_ircode⟩
  codegen := fun c => ⟨[], c.m_shader, c.m_symtab, c.m_ircode⟩
  fopen_w := fun _ => true
  fopen_r := fun _ => none
  uninit_buf := fun _ => []

/-- A symbol table in the order local, param, function, global, output-param, const. -/
def example_symtab : List Symbol :=
  [.mk "x" "x" ⟨.float, 0, false⟩ .SymTypeLocal none none none,
   .mk "Kd" "Kd" ⟨.float, 0, false⟩ .SymTypeParam none none none,
   .mk "sin" "sin" ⟨.float, 0, false⟩ .SymTypeFunction none none none,
   .mk "P" "P" ⟨.point, 0, false⟩ .SymTypeGlobal none none none,
   .mk "Cout" "Cout" ⟨.color, 0, false⟩ .SymTypeOutputParam none none none,
   .mk "$const1" "$const1" ⟨.int, 0, false⟩ .SymTypeConst none (some ⟨none, 1, .ofInt 0⟩) none]

/-- A compiler object after code generation of `surface s`, with the table above and no
instruction. -/
def example_compiler : OSLCompilerImpl where
  m_err := false
  m_verbose := false
  m_debug := false
  m_symtab := example_symtab
  m_shader := some (.shader_declaration ⟨"surface", some "s"⟩)
  m_ircode := []
  m_osofile := false
  m_sourcefile := none
  m_last_sourcefile := none
  m_last_sourceline := 0
  oslcompiler := none
  stderr := []
  osofiles := []
  trace := []

/-- The gating of the stages, read off a trace: scanning the events with the error flag `err`,
every stage other than parsing is started with the flag clear, and `error()` sets the flag. -/
def trace_gated : Bool → List Event → Prop
  | _, [] => True
  | _, Event.error :: rest => trace_gated true rest
  | err, Event.stage s :: rest => (s = Stage.parse ∨ err = false) ∧ trace_gated err rest

/-- The state `y` comes from the state `x` by steps that appended the events `l` to the trace:
the flag of `y` is set exactly when it was set in `x` or `error()` was called in between, the
stages were gated, and no object file was written unless the serializer was started. -/
def Step (x y : OSLCompilerImpl) (l : List Event) : Prop :=
  y.trace = x.trace ++ l ∧ y.m_err = (x.m_err || decide (Event.error ∈ l)) ∧
    trace_gated x.m_err l ∧ (Event.stage Stage.serialize ∉ l → y.osofiles = x.osofiles)

/-- The state `y` differs from `x` at most in the source cursor (`m_sourcefile`,
`m_last_sourcefile`, `m_last_sourceline`). -/
def same_but_cursor (x y : OSLCompilerImpl) : Prop :=
  y.m_err = x.m_err ∧ y.trace = x.trace ∧ y.osofiles = x.osofiles ∧
    y.oslcompiler = x.oslcompiler ∧ y.m_debug = x.m_debug ∧ y.m_osofile = x.m_osofile

/-- An environment like `example_env` whose type checker reports one error. -/
def example_env_type_error : Env :=
  { example_env with
    typecheck := fun c => ⟨[Diag.error (some "s.osl") 3 (some "type mismatch")], c.m_shader,
      c.m_symtab, c.m_ircode⟩ }

/-- An environment like `example_env` in which the preprocessor pipe does not open. -/
def example_env_no_pipe : Env :=
  { example_env with pipe_opens := fun _ => false }

/-- A compiler object on which the global `oslcompiler` was left set. -/
def example_compiler_stale : OSLCompilerImpl :=
  { example_compiler with oslcompiler := some 7 }

/-- The first line of a text, without its newline. -/
def first_line : List Char → List Char
  | [] => []
  | ch :: rest => if ch = newline then [] else ch :: first_line rest

/-- The first line of a text, with its newline when it has one. -/
def raw_line : List Char → List Char
  | [] => []
  | ch :: rest => if ch = newline then [ch] else ch :: raw_line rest

/-- A text after its first line. -/
def drop_line : List Char → List Char
  | [] => []
  | ch :: rest => if ch = newline then rest else drop_line rest

/-- The text of line `n` (counted from 1) of a file, without the trailing newline; `none` when
the file has fewer than `n` lines. -/
def line_text : List Char → Nat → Option (List Char)
  | _, 0 => none
  | text, n + 1 =>
    if text = [] then none
    else if n = 0 then some (first_line text)
    else line_text (drop_line text) n

/-- The cursor of a freshly constructed compiler: no file open, no line read. -/
def fresh_cursor (c : OSLCompilerImpl) : Prop :=
  c.m_sourcefile = none ∧ c.m_last_sourcefile = none ∧ c.m_last_sourceline = 0

/-- A source file of five lines. -/
def example_source : List Char := "a = 1;\nb = 2;\nc = 3;\nd = 4;\ne = 5;\n".toList

/-- An environment with the source file `test.osl`. -/
def example_env_source : Env :=
  { example_env with
    fopen_r := fun path => if path = "test.osl" then some example_source else none }

/-- A source file of five lines whose first line has 10239 characters. -/
def example_long_source : List Char :=
  List.replicate 10239 'a' ++ "\nl2\nl3\nl4\nl5\n".toList

/-- A source file of five lines whose third line holds a NUL character. -/
def example_nul_source : List Char :=
  "l1\nl2\nx".toList ++ NUL :: "y\nl4\nl5\n".toList

/-- An environment with the source files `long.osl` and `nul.osl`. -/
def example_env_odd_sources : Env :=
  { example_env with
    fopen_r := fun path =>
      if path = "long.osl" then some example_long_source
      else if path = "nul.osl" then some example_nul_source
      else none }

/-- The forwarded part of the preprocessor command as the specification words it: each option
other than `-v` and `-d`, wrapped in double quotes and followed by a space, in the original
order. -/
def spec_forwarded_options (options : List String) : String :=
  ((options.filter (fun o => decide (o ≠ "-v" ∧ o ≠ "-d"))).map
    (fun o => "\"" ++ o ++ "\" ")).foldr (fun a b => a ++ b) ""

/-- A compiler object on which an error was recorded before the call. -/
def example_compiler_failed : OSLCompilerImpl :=
  { example_compiler with m_err := true }

/-- A metadata entry `string help = "diffuse"` of a parameter. -/
def example_metadata : ASTNode :=
  .variable_declaration_node
    (some (.mk "help" "help" ⟨.string, 0, false⟩ .SymTypeLocal none none none))
    [.literal_node ⟨⟨.string, 0, false⟩, 0, .ofInt 0, some "diffuse"⟩] []

/-- The locals `lastline`, `lastfile` and `lastmethod` of the instruction loop of
`write_oso_file`. -/
structure LoopLocals where
  lastline : Int
  lastfile : ustring
  lastmethod : ustring

/-- The locals at the start of the loop. -/
def LoopLocals.start : LoopLocals := ⟨-1, none, uninitialized_method⟩

/-- The locals with which the instruction `op` is written: those before it, after the reset
that goes with the label of a new code block. -/
def LoopLocals.enter (L : LoopLocals) (op : IROpcode) : LoopLocals :=
  ⟨if L.lastmethod ≠ op.method then -1 else L.lastline,
   if L.lastmethod ≠ op.method then none else L.lastfile,
   op.method⟩

/-- The locals after the instruction `op` was written. -/
def LoopLocals.leave (L : LoopLocals) (op : IROpcode) : LoopLocals :=
  ⟨match op.node with
   | some nd => nd.sourceline
   | none => (L.enter op).lastline,
   match op.node with
   | some nd => nd.sourcefile
   | none => (L.enter op).lastfile,
   op.method⟩

/-- The locals after the instructions of a list were written. -/
def locals_after : List IROpcode → LoopLocals → LoopLocals
  | [], L => L
  | op :: rest, L => locals_after rest (L.leave op)

/-- The label line of a code block, written before the instruction `op` when `lastmethod` is
not its block. -/
def code_label (lastmethod : ustring) (op : IROpcode) : Emit :=
  if lastmethod ≠ op.method then oso [.lit "code ", .fmt_s op.method, .lit "\n"] else Emit.nil

/-- The hint annotations of an instruction as the specification words them: `%filename` when
the source file differs from `lastfile`, `%line` when the source line differs from
`lastline`; the first hint follows a tab, a second one a space. -/
def spec_hints (op : IROpcode) (lastfile : ustring) (lastline : Int) : List Tok :=
  match op.node with
  | none => []
  | some nd =>
    (if nd.sourcefile ≠ lastfile then
       [.fmt_c tab, .lit "%filename\x7b\"", .fmt_s nd.sourcefile, .lit "\"\x7d"]
     else []) ++
    (if nd.sourceline ≠ lastline then
       [.fmt_c (if nd.sourcefile ≠ lastfile then space else tab), .lit "%line\x7b",
        .fmt_d nd.sourceline, .lit "\x7d"]
     else [])

/-- The instruction record as the specification words it: the mnemonic, each operand resolved
through dealias and rendered by mangled name, each set jump target index, the hint
annotations, and the end of line (a tab or two separate the mnemonic from the operands). -/
def spec_instruction_line (op : IROpcode) (hints : List Tok) : List Tok :=
  [.lit "\t", .fmt_s (some op.opname)] ++
  (if op.args.length ≠ 0 then [.lit (if op.opname.utf8ByteSize < 8 then "\t\t" else "\t")]
   else []) ++
  op.args.flatMap (fun a => [.fmt_s (some a.dealias.mangled), .lit " "]) ++
  (op.jumps.filter (fun j => decide (0 ≤ j))).flatMap (fun j => [.fmt_d j, .lit " "]) ++
  hints ++ [.lit "\n"]

/-- The comment that debug mode writes before an instruction: position and source text. -/
def source_comment (nd : OpNode) (src : String) : Emit :=
  oso [.lit "# ", .fmt_s nd.sourcefile, .lit ":", .fmt_d nd.sourceline, .lit "\n# ",
       .fmt_s (some src), .lit "\n"]

/-- The tokens of the label line of the code block `m`. -/
def label_tokens (m : ustring) : List Tok := [.lit "code ", .fmt_s m, .lit "\n"]

/-- Two instructions that come from the same source line `s.osl:3` and lie in two different
code blocks. -/
def example_two_blocks : List IROpcode :=
  [⟨"nop", some "a", [], [], some ⟨some "s.osl", 3⟩⟩,
   ⟨"nop", some "b", [], [], some ⟨some "s.osl", 3⟩⟩]

/-- One instruction of a code block that bears the name `lastmethod` starts with. -/
def example_sentinel_block : List IROpcode :=
  [⟨"nop", some "___uninitialized___", [], [], none⟩]

/-- A compiler object with an empty symbol table and the two instructions of
`example_two_blocks`. -/
def example_compiler_two_blocks : OSLCompilerImpl :=
  { example_compiler with m_symtab := [], m_ircode := example_two_blocks }

/-- A compiler object with an empty symbol table and the instruction of
`example_sentinel_block`. -/
def example_compiler_sentinel : OSLCompilerImpl :=
  { example_compiler with m_symtab := [], m_ircode := example_sentinel_block }

/-! ## Construction of the compiler object -/

/-- The table `globals[]` of the shader globals with their types. -/
def globals : List (String × TypeSpec) :=
  [("P", ⟨.point, 0, false⟩),
   ("I", ⟨.vector, 0, false⟩),
   ("N", ⟨.normal, 0, false⟩),
   ("Ng", ⟨.normal, 0, false⟩),
   ("u", ⟨.float, 0, false⟩),
   ("v", ⟨.float, 0, false⟩),
   ("dPdu", ⟨.vector, 0, false⟩),
   ("dPdv", ⟨.vector, 0, false⟩),
   ("L", ⟨.vector, 0, false⟩),
   ("Cl", ⟨.color, 0, false⟩),
   ("Ps", ⟨.point, 0, false⟩),
   ("Ns", ⟨.normal, 0, false⟩),
   ("Pl", ⟨.point, 0, false⟩),
   ("Nl", ⟨.normal, 0, false⟩),
   ("Ci", ⟨.color, 0, true⟩),
   ("Oi", ⟨.color, 0, false⟩),
   ("time", ⟨.float, 0, false⟩),
   ("dtime", ⟨.float, 0, false⟩),
   ("dPdtime", ⟨.vector, 0, false⟩)]

/-- Modelled from the spec: the constructor `Symbol (name, type, symtype)` (declared in a
header that is missing): a symbol without declaring node, value or alias; the mangled name of
a symbol of the outermost scope is taken to be its name. -/
def Symbol.create (name : String) (type : TypeSpec) (symtype : SymType) : Symbol :=
  .mk name name type symtype none none none

namespace OSLCompilerImpl

/-- Modelled from the spec: `symtab().insert (s)` (defined in a file that is missing) for a
name that the current scope does not hold yet: the symbol is appended to the ordered
sequence. -/
def insert (c : OSLCompilerImpl) (s : Symbol) : OSLCompilerImpl :=
  { c with m_symtab := c.m_symtab ++ [s] }

/-- `OSLCompilerImpl::initialize_globals` -/
def initialize_globals (c : OSLCompilerImpl) : OSLCompilerImpl :=
  globals.foldl (fun c g => c.insert (Symbol.create g.1 g.2 SymType.SymTypeGlobal)) c

/-- Modelled from the spec: `initialize_builtin_funcs` (defined in a file that is missing)
inserts the symbols of the built-in functions, given here as `builtin_funcs`. -/
def initialize_builtin_funcs (c : OSLCompilerImpl) (builtin_funcs : List Symbol) :
    OSLCompilerImpl :=
  builtin_funcs.foldl insert c

/-- The constructor `OSLCompilerImpl::OSLCompilerImpl ()`, in a process that has not printed
or written anything yet and whose global `oslcompiler` is null. -/
def ctor (builtin_funcs : List Symbol) : OSLCompilerImpl :=
  initialize_builtin_funcs
    (initialize_globals
      { m_err := false, m_verbose := false, m_debug := false, m_symtab := [],
        m_shader := none, m_ircode := [], m_osofile := false, m_sourcefile := none,
        m_last_sourcefile := none, m_last_sourceline := 0, oslcompiler := none,
        stderr := [], osofiles := [], trace := [] })
    builtin_funcs

end OSLCompilerImpl

/-- The compiled unit of a minimal surface shader `surface name (float p ...)` without
instructions, made by a freshly constructed compiler: the parser has set the tree and inserted
the parameter `p`. -/
def minimal_shader_unit (builtin_funcs : List Symbol) (name : ustring) (p : Symbol) :
    OSLCompilerImpl :=
  { OSLCompilerImpl.insert (OSLCompilerImpl.ctor builtin_funcs) p with
    m_shader := some (.shader_declaration ⟨"surface", name⟩), m_ircode := [] }

/-- The record of a shader global: kind, type, name. -/
def global_record (g : String × TypeSpec) : List Tok :=
  [.shortname SymType.SymTypeGlobal, .lit "\t", .typestr g.2, .lit "\t", .fmt_s (some g.1),
   .lit "\n"]

/-- The float parameter `Kd` of the minimal shader, declared as `float Kd = 1`. -/
def example_param : Symbol :=
  .mk "Kd" "Kd" ⟨.float, 0, false⟩ .SymTypeParam
    (some (.variable_declaration_node
      (some (.mk "Kd" "Kd" ⟨.float, 0, false⟩ .SymTypeParam none none none))
      [.literal_node ⟨⟨.int, 0, false⟩, 1, .ofInt 0, none⟩] []))
    none none

/-- A compiler object in debug mode with one instruction from line 1 of `test.osl`. -/
def example_compiler_debug : OSLCompilerImpl :=
  { example_compiler with
    m_debug := true, m_symtab := [],
    m_ircode := [⟨"nop", some "main", [], [], some ⟨some "test.osl", 1⟩⟩] }

/-- An environment with the source file `test.osl` in which the uninitialized line buffer of
`retrieve_source` holds `junk`. -/
def example_env_junk : Env :=
  { example_env_source with uninit_buf := fun _ => "junk".toList }

/-- An environment with the two source files `a.osl` and `b.osl`, of three lines each. -/
def example_env_two_files : Env :=
  { example_env with
    fopen_r := fun path =>
      if path = "a.osl" then some "a1\na2\na3\n".toList
      else if path = "b.osl" then some "b1\nb2\nb3\n".toList
      else none }

/-- The code block of the instruction before the one that follows the list `pre`, as the loop
of `write_oso_file` sees it: the block of the last instruction of `pre`, and the name
`lastmethod` starts with when `pre` is empty. -/
def spec_lastmethod (pre : List IROpcode) : ustring :=
  match pre.getLast? with
  | some prev => prev.method
  | none => uninitialized_method

/-- The instructions of `pre` that lie directly before `op` in the code block of `op`: from the
last instruction of `pre` backwards, as long as the block is the one of `op`; the most recent
comes first. -/
def block_before (pre : List IROpcode) (op : IROpcode) : List IROpcode :=
  pre.reverse.takeWhile (fun p => decide (p.method = op.method))

/-- The source reference of the most recent instruction before `op`, in the code block of
`op`, that has one. -/
def last_source_ref (pre : List IROpcode) (op : IROpcode) : Option OpNode :=
  ((block_before pre op).filterMap IROpcode.node).head?

/-- The file the `%filename` hint of `op` is compared with, as the specification words it: the
file of the previous instruction of the block that has a source reference, and the null name
when the block has none before `op`. -/
def spec_lastfile (pre : List IROpcode) (op : IROpcode) : ustring :=
  match last_source_ref pre op with
  | some nd => nd.sourcefile
  | none => none

/-- The line the `%line` hint of `op` is compared with, as the specification words it: the
line of the previous instruction of the block that has a source reference, and -1 when the
block has none before `op`. -/
def spec_lastline (pre : List IROpcode) (op : IROpcode) : Int :=
  match last_source_ref pre op with
  | some nd => nd.sourceline
  | none => -1

/-- The text of the code part as the specification words it, for the instructions `rest` that
follow the instructions `pre`: each instruction is written as its record, with the hints that
its file and line call for, and is preceded by the label of its code block when that block is
not the block of the instruction before. -/
def spec_code_text : List IROpcode → List IROpcode → List Tok
  | _, [] => []
  | pre, op :: rest =>
    (if op.method ≠ spec_lastmethod pre then label_tokens op.method else []) ++
    spec_instruction_line op (spec_hints op (spec_lastfile pre op) (spec_lastline pre op)) ++
    spec_code_text (pre ++ [op]) rest

/-- Three instructions of one code block: the first and the third come from `s.osl:3`, the
second has no source reference. -/
def example_gap_block : List IROpcode :=
  [⟨"add", some "main", [], [], some ⟨some "s.osl", 3⟩⟩,
   ⟨"nop", some "main", [], [], none⟩,
   ⟨"mul", some "main", [], [], some ⟨some "s.osl", 3⟩⟩]

/-! ## Writers -/

theorem Emit.seq_text (a b : Emit) :
    (a.seq b).text = a.text ++ (if a.aborted then [] else b.text) := by
  unfold Emit.seq
  split <;> simp

theorem Emit.seq_aborted (a b : Emit) :
    (a.seq b).aborted = (a.aborted || b.aborted) := by
  unfold Emit.seq
  cases h : a.aborted <;> simp [h]

theorem Emit.seq_oso (l : List Tok) (b : Emit) : (oso l).seq b = ⟨l ++ b.text, b.aborted⟩ := by
  simp [Emit.seq, oso]

theorem Emit.nil_seq (b : Emit) : Emit.nil.seq b = b := by
  simp [Emit.seq, Emit.nil]

theorem Emit.abort_seq (b : Emit) : Emit.abort.seq b = Emit.abort := by
  simp [Emit.seq, Emit.abort]

theorem Emit.mem_seq_text {a b : Emit} {x : Tok} (h : x ∈ (a.seq b).text) :
    x ∈ a.text ∨ x ∈ b.text := by
  rw [Emit.seq_text] at h
  rcases List.mem_append.mp h with h | h
  · exact Or.inl h
  · split at h
    · simp at h
    · exact Or.inr h

/-! ## Default values of formal parameters -/

theorem TypeSpec.matrix_class {t : TypeSpec} (h : t.is_matrix = true) :
    t.is_int = false ∧ t.is_float = false ∧ t.is_triple = false ∧ t.is_string = false := by
  unfold TypeSpec.is_matrix at h
  unfold TypeSpec.is_int TypeSpec.is_float TypeSpec.is_triple TypeSpec.is_string
  cases hb : t.base <;> simp_all

theorem TypeSpec.triple_class {t : TypeSpec} (h : t.is_triple = true) :
    t.is_int = false ∧ t.is_float = false ∧ t.is_matrix = false ∧ t.is_string = false := by
  unfold TypeSpec.is_triple at h
  unfold TypeSpec.is_int TypeSpec.is_float TypeSpec.is_matrix TypeSpec.is_string
  cases hb : t.base <;> simp_all

theorem TypeSpec.int_not_float {t : TypeSpec} (h : t.is_int = true) : t.is_float = false := by
  unfold TypeSpec.is_int at h
  unfold TypeSpec.is_float
  cases hb : t.base <;> simp_all

/-- C3: a matrix-typed parameter whose initializer is a single int or float literal gets
sixteen `%g` values, each of them the value `f` of the literal (converted to float when the
literal is an int), and the writer does not abort. -/
theorem C3_matrix_default_broadcast (node : ASTvariable_declaration) (sym : Symbol)
    (l : ASTliteral) (hsym : node.sym = some sym) (hmatrix : sym.typespec.is_matrix = true)
    (hinit : node.init = [ASTNode.literal_node l])
    (hlit : l.typespec.is_int = true ∨ l.typespec.is_float = true) :
    write_oso_formal_default node =
      oso (List.replicate 16
        [Tok.fmt_g (if l.typespec.is_int then CFloat.ofInt l.intval else l.floatval),
         Tok.lit " "]).flatten := by
  obtain ⟨h1, h2, h3, _⟩ := TypeSpec.matrix_class hmatrix
  unfold write_oso_formal_default
  rw [hsym]
  simp only [hinit, write_oso_formal_default_loop, write_oso_formal_default_init, h1, h2, h3,
    hmatrix, ASTNode.as_literal, scalar_fill]
  rcases hlit with hl | hl
  · simp [hl, Emit.seq, oso, Emit.nil, List.replicate]
  · have hni : l.typespec.is_int = false := by
      cases hi : l.typespec.is_int
      · rfl
      · rw [TypeSpec.int_not_float hi] at hl
        exact absurd hl (by simp)
    simp [hl, hni, Emit.seq, oso, Emit.nil, List.replicate]

theorem C3_matrix_default_broadcast_witness :
    write_oso_formal_default example_matrix_decl =
      oso (List.replicate 16 [Tok.fmt_g (CFloat.ofInt 2), Tok.lit " "]).flatten :=
  C3_matrix_default_broadcast example_matrix_decl
    (.mk "m" "m" ⟨.matrix, 0, false⟩ .SymTypeParam none none none)
    ⟨⟨.int, 0, false⟩, 2, .ofInt 0, none⟩ rfl rfl rfl (Or.inl rfl)

/-- C4: a triple-typed parameter with one initializer node gets exactly three `%g` values, all
the same `f`: the value of the literal when the initializer is an int literal (converted) or a
float literal, and zero when it is not a literal or is a literal of another type; the writer
does not abort. -/
theorem C4_triple_default (node : ASTvariable_declaration) (sym : Symbol) (init : ASTNode)
    (hsym : node.sym = some sym) (htriple : sym.typespec.is_triple = true)
    (hinit : node.init = [init]) :
    ∃ f : CFloat,
      write_oso_formal_default node =
        oso [Tok.fmt_g f, Tok.lit " ", Tok.fmt_g f, Tok.lit " ", Tok.fmt_g f, Tok.lit " "] ∧
      (∀ l, init.as_literal = some l → l.typespec.is_int = true → f = CFloat.ofInt l.intval) ∧
      (∀ l, init.as_literal = some l → l.typespec.is_float = true → f = l.floatval) ∧
      (init.as_literal = none → f = CFloat.ofInt 0) ∧
      (∀ l, init.as_literal = some l → l.typespec.is_int = false →
        l.typespec.is_float = false → f = CFloat.ofInt 0) := by
  obtain ⟨h1, h2, _, _⟩ := TypeSpec.triple_class htriple
  refine ⟨scalar_fill init.as_literal, ?_, ?_, ?_, ?_, ?_⟩
  · unfold write_oso_formal_default
    rw [hsym]
    simp [hinit, write_oso_formal_default_loop, write_oso_formal_default_init, h1, h2, htriple,
      Emit.seq, oso, Emit.nil]
  · intro l hl hi
    simp [scalar_fill, hl, hi]
  · intro l hl hf
    have hni : l.typespec.is_int = false := by
      cases hi : l.typespec.is_int
      · rfl
      · rw [TypeSpec.int_not_float hi] at hf
        exact absurd hf (by simp)
    simp [scalar_fill, hl, hf, hni]
  · intro hl
    simp [scalar_fill, hl]
  · intro l hl hi hf
    simp [scalar_fill, hl, hi, hf]

theorem C4_triple_default_witness :
    ∃ f : CFloat,
      write_oso_formal_default example_color_decl =
        oso [Tok.fmt_g f, Tok.lit " ", Tok.fmt_g f, Tok.lit " ", Tok.fmt_g f, Tok.lit " "] ∧
      (∀ l, (ASTNode.other_node "type_constructor").as_literal = some l →
        l.typespec.is_int = true → f = CFloat.ofInt l.intval) ∧
      (∀ l, (ASTNode.other_node "type_constructor").as_literal = some l →
        l.typespec.is_float = true → f = l.floatval) ∧
      ((ASTNode.other_node "type_constructor").as_literal = none → f = CFloat.ofInt 0) ∧
      (∀ l, (ASTNode.other_node "type_constructor").as_literal = some l →
        l.typespec.is_int = false → l.typespec.is_float = false → f = CFloat.ofInt 0) :=
  C4_triple_default example_color_decl
    (.mk "c" "c" ⟨.color, 0, false⟩ .SymTypeParam none none none)
    (.other_node "type_constructor") rfl rfl rfl

theorem write_oso_formal_default_loop_supported (type : TypeSpec) (lits : List ASTliteral)
    (hsupp : type.is_int = true ∨ type.is_float = true ∨ type.is_triple = true ∨
      type.is_matrix = true ∨ type.is_string = true) :
    write_oso_formal_default_loop type (lits.map ASTNode.literal_node) =
      oso (lits.flatMap (spec_default_encoding type)) := by
  induction lits with
  | nil => rfl
  | cons l rest ih =>
    simp only [List.map_cons, write_oso_formal_default_loop, ih, List.flatMap_cons]
    have hone : write_oso_formal_default_init type (ASTNode.literal_node l) =
        oso (spec_default_encoding type l) := by
      unfold write_oso_formal_default_init spec_default_encoding
      unfold TypeSpec.is_int TypeSpec.is_float TypeSpec.is_triple TypeSpec.is_matrix
        TypeSpec.is_string at *
      cases hb : type.base <;> cases hc : type.closure <;>
        simp_all [ASTNode.as_literal, List.replicate] <;>
        split <;> simp_all <;> split <;> simp_all
    rw [hone]
    simp [Emit.seq, oso]

theorem write_oso_formal_default_loop_unsupported (type : TypeSpec) (init : ASTNode)
    (rest : List ASTNode)
    (hi : type.is_int = false) (hf : type.is_float = false) (ht : type.is_triple = false)
    (hm : type.is_matrix = false) (hs : type.is_string = false) :
    write_oso_formal_default_loop type (init :: rest) = Emit.abort := by
  simp [write_oso_formal_default_loop, write_oso_formal_default_init, hi, hf, ht, hm, hs,
    Emit.abort_seq]

/-- C5 (as amended): for an array-typed parameter whose element type is int, float, triple,
matrix or string and whose initializers are the literals `lits`, the writer does not abort and
writes, in initializer order, the encoding of each literal (one value for int, float and
string, the scalar three times for a triple and sixteen times for a matrix); for any other
element type it aborts at the first initializer, having written nothing. -/
theorem C5_array_default_encoding (node : ASTvariable_declaration) (sym : Symbol)
    (lits : List ASTliteral) (hsym : node.sym = some sym)
    (harray : sym.typespec.is_array = true)
    (hinit : node.init = lits.map ASTNode.literal_node) :
    ((sym.typespec.is_int = true ∨ sym.typespec.is_float = true ∨
        sym.typespec.is_triple = true ∨ sym.typespec.is_matrix = true ∨
        sym.typespec.is_string = true) →
      write_oso_formal_default node =
        oso (lits.flatMap (spec_default_encoding sym.typespec))) ∧
    ((sym.typespec.is_int = false ∧ sym.typespec.is_float = false ∧
        sym.typespec.is_triple = false ∧ sym.typespec.is_matrix = false ∧
        sym.typespec.is_string = false ∧ lits ≠ []) →
      write_oso_formal_default node = Emit.abort) := by
  have _ := harray
  constructor
  · intro hsupp
    unfold write_oso_formal_default
    rw [hsym]
    simp only [hinit]
    exact write_oso_formal_default_loop_supported sym.typespec lits hsupp
  · rintro ⟨hi, hf, ht, hm, hs, hne⟩
    unfold write_oso_formal_default
    rw [hsym]
    simp only [hinit]
    cases lits with
    | nil => exact absurd rfl hne
    | cons l rest =>
      exact write_oso_formal_default_loop_unsupported sym.typespec _ _ hi hf ht hm hs

theorem C5_array_default_encoding_witness :
    write_oso_formal_default example_float_array_decl =
      oso [Tok.fmt_d 1, Tok.lit " ", Tok.fmt_g (CFloat.ofBits 1075838976), Tok.lit " "] :=
  (C5_array_default_encoding example_float_array_decl
    (.mk "a" "a" ⟨.float, 2, false⟩ .SymTypeParam none none none)
    [⟨⟨.int, 0, false⟩, 1, .ofInt 0, none⟩, ⟨⟨.float, 0, false⟩, 0, .ofBits 1075838976, none⟩]
    rfl rfl rfl).1 (Or.inr (Or.inl rfl))

/-- C5 (as stated) fails: an array parameter of a struct type with one literal initializer
makes the writer abort, and the array `color c[2] = { 1, 2 }` of two literals gets six values,
each scalar three times, not two. -/
theorem C5_array_default_counterexample :
    write_oso_formal_default example_struct_array_decl = Emit.abort ∧
    write_oso_formal_default example_color_array_decl =
      oso [Tok.fmt_g (CFloat.ofInt 1), Tok.lit " ", Tok.fmt_g (CFloat.ofInt 1), Tok.lit " ",
           Tok.fmt_g (CFloat.ofInt 1), Tok.lit " ", Tok.fmt_g (CFloat.ofInt 2), Tok.lit " ",
           Tok.fmt_g (CFloat.ofInt 2), Tok.lit " ", Tok.fmt_g (CFloat.ofInt 2), Tok.lit " "] := by
  constructor <;> decide

/-! ## Order of the symbol records -/

theorem Emit.seq_assoc (a b c : Emit) : (a.seq b).seq c = a.seq (b.seq c) := by
  unfold Emit.seq
  cases ha : a.aborted <;> cases hb : b.aborted <;> simp [ha, hb]

theorem Emit.seq_nil (a : Emit) : a.seq Emit.nil = a := by
  unfold Emit.seq Emit.nil
  cases ha : a.aborted
  · cases a
    simp_all
  · simp

theorem no_record_start_nil : no_record_start [] := by
  intro k h
  simp at h

theorem no_record_start_seq {a b : Emit} (ha : no_record_start a.text)
    (hb : no_record_start b.text) : no_record_start (a.seq b).text := by
  intro k h
  rcases Emit.mem_seq_text h with h | h
  · exact ha k h
  · exact hb k h

theorem no_record_start_append {l1 l2 : List Tok} (h1 : no_record_start l1)
    (h2 : no_record_start l2) : no_record_start (l1 ++ l2) := by
  intro k h
  rcases List.mem_append.mp h with h | h
  · exact h1 k h
  · exact h2 k h

theorem no_record_start_abort : no_record_start Emit.abort.text := by
  intro k h
  simp [Emit.abort] at h

theorem no_record_start_nil_text : no_record_start Emit.nil.text := by
  intro k h
  simp [Emit.nil] at h

theorem no_record_start_metadata (m : ASTNode) : no_record_start (write_oso_metadata m).text := by
  unfold write_oso_metadata
  repeat' (first
    | exact no_record_start_abort
    | apply no_record_start_seq
    | split
    | (intro k h; simp [oso] at h))

theorem no_record_start_const_value (s : Symbol) :
    no_record_start (write_oso_const_value s).text := by
  unfold write_oso_const_value
  repeat' (first
    | exact no_record_start_abort
    | split
    | (intro k h; simp [oso] at h))

theorem no_record_start_formal_default_init (type : TypeSpec) (init : ASTNode) :
    no_record_start (write_oso_formal_default_init type init).text := by
  simp only [write_oso_formal_default_init]
  repeat' (first
    | exact no_record_start_abort
    | split
    | (intro k h; simp [oso] at h))

theorem no_record_start_formal_default_loop (type : TypeSpec) (inits : List ASTNode) :
    no_record_start (write_oso_formal_default_loop type inits).text := by
  induction inits with
  | nil => exact no_record_start_nil_text
  | cons i rest ih =>
    exact no_record_start_seq (no_record_start_formal_default_init type i) ih

theorem no_record_start_formal_default (v : ASTvariable_declaration) :
    no_record_start (write_oso_formal_default v).text := by
  unfold write_oso_formal_default
  split
  · exact no_record_start_abort
  · exact no_record_start_formal_default_loop _ _

theorem no_record_start_symbol_meta (metas : List ASTNode) (hints : Nat) :
    no_record_start (write_oso_symbol_meta hints metas).text := by
  induction metas generalizing hints with
  | nil => exact no_record_start_nil_text
  | cons m rest ih =>
    unfold write_oso_symbol_meta
    refine no_record_start_seq (no_record_start_seq ?_ (no_record_start_metadata m)) (ih _)
    split
    · intro k h
      simp [oso] at h
    · exact no_record_start_nil_text

/-- A symbol record is the short name of the kind followed by text without a record start. -/
theorem write_oso_symbol_text (s : Symbol) :
    ∃ t, (write_oso_symbol s).text = Tok.shortname s.symtype :: t ∧ no_record_start t := by
  unfold write_oso_symbol
  simp only [Emit.seq_oso]
  refine ⟨_, rfl, ?_⟩
  refine no_record_start_append ?_ (no_record_start_seq ?_ (no_record_start_seq ?_ ?_))
  · intro k h
    simp at h
  · repeat' (first
      | exact no_record_start_nil_text
      | exact no_record_start_const_value _
      | exact no_record_start_formal_default _
      | apply no_record_start_seq
      | apply no_record_start_append
      | split
      | (intro k h; simp [oso] at h))
  · split
    · exact no_record_start_symbol_meta _ _
    · exact no_record_start_nil_text
  · intro k h
    simp [oso] at h

theorem mem_write_oso_symbol {s : Symbol} {k : SymType}
    (h : Tok.shortname k ∈ (write_oso_symbol s).text) : k = s.symtype := by
  obtain ⟨t, ht, hno⟩ := write_oso_symbol_text s
  rw [ht] at h
  rcases List.mem_cons.mp h with h | h
  · exact Tok.shortname.inj h
  · exact absurd h (hno k)

theorem mem_write_oso_params {syms : List Symbol} {k : SymType}
    (h : Tok.shortname k ∈ (write_oso_params syms).text) : k.is_param_kind = true := by
  induction syms with
  | nil => simp [write_oso_params, Emit.nil] at h
  | cons s rest ih =>
    unfold write_oso_params at h
    split at h
    · rename_i hk
      rcases Emit.mem_seq_text h with h | h
      · rw [mem_write_oso_symbol h]
        rcases hk with hk | hk <;> rw [hk] <;> rfl
      · exact ih h
    · exact ih h

theorem mem_write_oso_nonparams {syms : List Symbol} {k : SymType}
    (h : Tok.shortname k ∈ (write_oso_nonparams syms).text) : k.is_nonparam_kind = true := by
  induction syms with
  | nil => simp [write_oso_nonparams, Emit.nil] at h
  | cons s rest ih =>
    unfold write_oso_nonparams at h
    split at h
    · rename_i hk
      rcases Emit.mem_seq_text h with h | h
      · rw [mem_write_oso_symbol h]
        rcases hk with hk | hk | hk | hk <;> rw [hk] <;> rfl
      · exact ih h
    · exact ih h

theorem no_record_start_header (c : OSLCompilerImpl) :
    no_record_start (write_oso_header c).text := by
  unfold write_oso_header
  repeat' (first
    | exact no_record_start_abort
    | apply no_record_start_seq
    | split
    | (intro k h; simp [oso] at h))

theorem no_record_start_op_args (args : List Symbol) :
    no_record_start (write_oso_op_args args).text := by
  induction args with
  | nil => exact no_record_start_nil_text
  | cons a rest ih =>
    refine no_record_start_seq ?_ ih
    intro k h
    simp [oso] at h

theorem no_record_start_op_jumps (jumps : List Int) :
    no_record_start (write_oso_op_jumps jumps).text := by
  induction jumps with
  | nil => exact no_record_start_nil_text
  | cons j rest ih =>
    refine no_record_start_seq ?_ ih
    split
    · intro k h
      simp [oso] at h
    · exact no_record_start_nil_text

theorem no_record_start_op (op : IROpcode) (lastfile : ustring) (lastline : Int) :
    no_record_start (write_oso_op op lastfile lastline).text := by
  unfold write_oso_op write_oso_op_filename write_oso_op_line
  repeat' (first
    | exact no_record_start_nil_text
    | exact no_record_start_op_args _
    | exact no_record_start_op_jumps _
    | apply no_record_start_seq
    | split
    | (intro k h; simp [oso] at h))

theorem no_record_start_source_comment {env : Env} {c : OSLCompilerImpl} {idx : Nat}
    {op : IROpcode} {lastfile : ustring} {lastline : Int} {d : Emit × OSLCompilerImpl}
    (h : write_oso_source_comment env c idx op lastfile lastline = some d) :
    no_record_start d.1.text := by
  unfold write_oso_source_comment at h
  split at h
  · split at h
    · split at h
      · exact absurd h (by simp)
      · simp only [Option.some.injEq] at h
        rw [← h]
        intro k hk
        simp [oso] at hk
    · simp only [Option.some.injEq] at h
      rw [← h]
      exact no_record_start_nil_text
  · simp only [Option.some.injEq] at h
    rw [← h]
    exact no_record_start_nil_text

theorem no_record_start_code (env : Env) (ops : List IROpcode) (idx : Nat) (lastline : Int)
    (lastfile lastmethod : ustring) (c : OSLCompilerImpl) :
    no_record_start (write_oso_code env ops idx lastline lastfile lastmethod c).1.text := by
  induction ops generalizing idx lastline lastfile lastmethod c with
  | nil => exact no_record_start_nil_text
  | cons op rest ih =>
    unfold write_oso_code
    have hlabel : no_record_start (if lastmethod ≠ op.method
        then oso [.lit "code ", .fmt_s op.method, .lit "\n"] else Emit.nil).text := by
      split
      · intro k h
        simp [oso] at h
      · exact no_record_start_nil_text
    simp only
    split
    · exact no_record_start_seq hlabel no_record_start_abort
    · rename_i d hd
      exact no_record_start_seq hlabel (no_record_start_seq (no_record_start_source_comment hd)
        (no_record_start_seq (no_record_start_op _ _ _) (ih _ _ _ _ _)))

theorem write_oso_params_eq_records (syms : List Symbol) :
    write_oso_params syms =
      write_oso_records (syms.filter (fun s => s.symtype.is_param_kind)) := by
  induction syms with
  | nil => rfl
  | cons s rest ih =>
    unfold write_oso_params
    cases hk : s.symtype <;>
      simp [hk, List.filter, SymType.is_param_kind, write_oso_records, ih]

theorem write_oso_nonparams_eq_records (syms : List Symbol) :
    write_oso_nonparams syms =
      write_oso_records (syms.filter (fun s => s.symtype.is_nonparam_kind)) := by
  induction syms with
  | nil => rfl
  | cons s rest ih =>
    unfold write_oso_nonparams
    cases hk : s.symtype <;>
      simp [hk, List.filter, SymType.is_nonparam_kind, write_oso_records, ih]

theorem write_oso_records_append (l1 l2 : List Symbol) :
    write_oso_records (l1 ++ l2) = (write_oso_records l1).seq (write_oso_records l2) := by
  induction l1 with
  | nil => simp [write_oso_records, Emit.nil_seq]
  | cons s rest ih => simp [write_oso_records, ih, Emit.seq_assoc]

theorem write_oso_symbols_eq_records (syms : List Symbol) :
    (write_oso_params syms).seq (write_oso_nonparams syms) =
      write_oso_records (spec_symbol_order syms) := by
  rw [write_oso_params_eq_records, write_oso_nonparams_eq_records, spec_symbol_order,
    write_oso_records_append]

theorem write_oso_records_text (l : List Symbol) (h : (write_oso_records l).aborted = false) :
    (write_oso_records l).text = l.flatMap (fun s => (write_oso_symbol s).text) := by
  induction l with
  | nil => rfl
  | cons s rest ih =>
    simp only [write_oso_records, Emit.seq_aborted, Bool.or_eq_false_iff] at h
    simp [write_oso_records, Emit.seq_text, h.1, ih h.2]

theorem write_oso_header_same (c : OSLCompilerImpl) (b : Bool) :
    write_oso_header { c with m_osofile := b } = write_oso_header c := rfl

theorem Emit.seq_of_aborted {a b : Emit} (h : a.aborted = true) : a.seq b = a := by
  unfold Emit.seq
  simp [h]

theorem write_oso_body_fst (c : OSLCompilerImpl) (env : Env) :
    (c.write_oso_body env).1 =
      ((write_oso_header c).seq
        ((write_oso_params c.m_symtab).seq (write_oso_nonparams c.m_symtab))).seq
      ((write_oso_code env c.m_ircode 0 (-1) none uninitialized_method c).1.seq
        (oso [Tok.lit "\tend\n"])) := by
  unfold OSLCompilerImpl.write_oso_body
  simp only
  split
  · rename_i h
    exact (Emit.seq_of_aborted h).symm
  · rfl

theorem write_oso_file_text_eq (c : OSLCompilerImpl) (env : Env) (outfilename : String) :
    (c.write_oso_file env outfilename).text =
      if c.m_osofile = true then []
      else if env.fopen_w outfilename = false then []
      else (OSLCompilerImpl.write_oso_body { c with m_osofile := true } env).1.text := by
  unfold OSLCompilerImpl.write_oso_file
  split
  · rfl
  · split
    · rfl
    · simp only
      split <;> rfl

theorem write_oso_file_aborted_eq (c : OSLCompilerImpl) (env : Env) (outfilename : String) :
    (c.write_oso_file env outfilename).aborted =
      if c.m_osofile = true then true
      else if env.fopen_w outfilename = false then false
      else (OSLCompilerImpl.write_oso_body { c with m_osofile := true } env).1.aborted := by
  unfold OSLCompilerImpl.write_oso_file
  split
  · rfl
  · split
    · rfl
    · simp only
      split
      · rename_i h
        exact h.symm
      · rename_i h
        simp only [Bool.not_eq_true] at h
        exact h.symm

/-- What a run of `write_oso_file` that opened the file and did not abort has written, part by
part, none of the parts having aborted. -/
theorem write_oso_file_text (c : OSLCompilerImpl) (env : Env) (outfilename : String)
    (hopen : env.fopen_w outfilename = true)
    (hok : (c.write_oso_file env outfilename).aborted = false) :
    (c.write_oso_file env outfilename).text =
      (write_oso_header c).text ++
      ((write_oso_params c.m_symtab).seq (write_oso_nonparams c.m_symtab)).text ++
      ((write_oso_code env c.m_ircode 0 (-1) none uninitialized_method
          { c with m_osofile := true }).1.text ++ [Tok.lit "\tend\n"]) ∧
    ((write_oso_params c.m_symtab).seq (write_oso_nonparams c.m_symtab)).aborted = false := by
  rw [write_oso_file_aborted_eq] at hok
  rw [write_oso_file_text_eq]
  cases hf : c.m_osofile
  · simp only [hf, hopen, Bool.false_eq_true, Bool.true_eq_false, if_false] at hok ⊢
    rw [write_oso_body_fst] at hok ⊢
    simp only [write_oso_header_same] at hok ⊢
    simp only [Emit.seq_aborted, Bool.or_eq_false_iff] at hok
    obtain ⟨⟨hh, hp, hn⟩, hc, _⟩ := hok
    simp [Emit.seq_text, Emit.seq_aborted, hh, hp, hn, hc, oso]
  · simp [hf] at hok

/-- C2: the symbol part of `write_oso_file` is one record after the other for the table
sequence filtered to param/output-param followed by the table sequence filtered to
local/temp/global/const (a fatal assertion inside a record ends the sequence there); and the
text of a run that opened the file and did not abort is the header, the records of exactly
these symbols in this order, the code and the end marker, where neither the header nor the code
holds a record. -/
theorem C2_symbol_record_sequence (c : OSLCompilerImpl) (env : Env) (outfilename : String) :
    (write_oso_params c.m_symtab).seq (write_oso_nonparams c.m_symtab) =
      write_oso_records (spec_symbol_order c.m_symtab) ∧
    (env.fopen_w outfilename = true → (c.write_oso_file env outfilename).aborted = false →
      (c.write_oso_file env outfilename).text =
        (write_oso_header c).text ++
        (spec_symbol_order c.m_symtab).flatMap (fun s => (write_oso_symbol s).text) ++
        ((write_oso_code env c.m_ircode 0 (-1) none uninitialized_method
            { c with m_osofile := true }).1.text ++ [Tok.lit "\tend\n"]) ∧
      no_record_start (write_oso_header c).text ∧
      no_record_start (write_oso_code env c.m_ircode 0 (-1) none uninitialized_method
        { c with m_osofile := true }).1.text) := by
  refine ⟨write_oso_symbols_eq_records _, fun hopen hok => ⟨?_, no_record_start_header c,
    no_record_start_code _ _ _ _ _ _ _⟩⟩
  obtain ⟨htext, hrec⟩ := write_oso_file_text c env outfilename hopen hok
  rw [write_oso_symbols_eq_records] at hrec
  rw [htext, write_oso_symbols_eq_records, write_oso_records_text _ hrec]

theorem C2_symbol_record_sequence_witness :
    (example_compiler.write_oso_file example_env "s.oso").text =
      (write_oso_header example_compiler).text ++
      (spec_symbol_order example_symtab).flatMap (fun s => (write_oso_symbol s).text) ++
      ((write_oso_code example_env [] 0 (-1) none uninitialized_method
          { example_compiler with m_osofile := true }).1.text ++ [Tok.lit "\tend\n"]) :=
  ((C2_symbol_record_sequence example_compiler example_env "s.oso").2 rfl rfl).1

theorem write_oso_body_split (c : OSLCompilerImpl) (env : Env) :
    ∃ A B, (c.write_oso_body env).1.text = A ++ B ∧
      (∀ k, Tok.shortname k ∈ A → k.is_param_kind = true) ∧
      (∀ k, Tok.shortname k ∈ B → k.is_nonparam_kind = true) := by
  rw [write_oso_body_fst]
  refine ⟨(write_oso_header c).text ++
      (if (write_oso_header c).aborted then [] else (write_oso_params c.m_symtab).text),
    (if (write_oso_header c).aborted then []
      else if (write_oso_params c.m_symtab).aborted then []
      else (write_oso_nonparams c.m_symtab).text) ++
    (if ((write_oso_header c).seq
        ((write_oso_params c.m_symtab).seq (write_oso_nonparams c.m_symtab))).aborted then []
      else ((write_oso_code env c.m_ircode 0 (-1) none uninitialized_method c).1.seq
        (oso [Tok.lit "\tend\n"])).text), ?_, ?_, ?_⟩
  · simp only [Emit.seq_text]
    cases (write_oso_header c).aborted <;> cases (write_oso_params c.m_symtab).aborted <;> simp
  · intro k hk
    rcases List.mem_append.mp hk with hk | hk
    · exact absurd hk (no_record_start_header c k)
    · split at hk
      · simp at hk
      · exact mem_write_oso_params hk
  · intro k hk
    rcases List.mem_append.mp hk with hk | hk
    · split at hk
      · simp at hk
      · split at hk
        · simp at hk
        · exact mem_write_oso_nonparams hk
    · split at hk
      · simp at hk
      · rcases Emit.mem_seq_text hk with hk | hk
        · exact absurd hk (no_record_start_code _ _ _ _ _ _ _ k)
        · simp [oso] at hk

theorem write_oso_file_split (c : OSLCompilerImpl) (env : Env) (outfilename : String) :
    ∃ A B, (c.write_oso_file env outfilename).text = A ++ B ∧
      (∀ k, Tok.shortname k ∈ A → k.is_param_kind = true) ∧
      (∀ k, Tok.shortname k ∈ B → k.is_nonparam_kind = true) := by
  rw [write_oso_file_text_eq]
  split
  · exact ⟨[], [], rfl, by simp, by simp⟩
  · split
    · exact ⟨[], [], rfl, by simp, by simp⟩
    · exact write_oso_body_split _ env

theorem SymType.param_not_nonparam {k : SymType} (hp : k.is_param_kind = true)
    (hn : k.is_nonparam_kind = true) : False := by
  cases k <;> simp [SymType.is_param_kind, SymType.is_nonparam_kind] at hp hn

/-- C1: in the text written by `write_oso_file`, whatever the symbol table, the instructions
and the outcome of the run, every record of kind param or output-param (a record begins with
the short name of the kind, at position `i`) comes before every record of kind local, temp,
global or const (at position `j`). -/
theorem C1_params_before_nonparams (c : OSLCompilerImpl) (env : Env) (outfilename : String)
    (i j : Nat) (kp kn : SymType)
    (hi : (c.write_oso_file env outfilename).text[i]? = some (Tok.shortname kp))
    (hj : (c.write_oso_file env outfilename).text[j]? = some (Tok.shortname kn))
    (hp : kp.is_param_kind = true) (hn : kn.is_nonparam_kind = true) : i < j := by
  obtain ⟨A, B, hAB, hA, hB⟩ := write_oso_file_split c env outfilename
  rw [hAB] at hi hj
  have hiA : i < A.length := by
    by_contra hge
    rw [List.getElem?_append_right (Nat.le_of_not_lt hge)] at hi
    exact SymType.param_not_nonparam hp (hB kp (List.getElem?_mem hi))
  have hjA : A.length ≤ j := by
    by_contra hlt
    rw [List.getElem?_append_left (Nat.lt_of_not_le hlt)] at hj
    exact SymType.param_not_nonparam (hA kn (List.getElem?_mem hj)) hn
  exact Nat.lt_of_lt_of_le hiA hjA

theorem C1_params_before_nonparams_witness :
    (example_compiler.write_oso_file example_env "s.oso").text[12]? =
      some (Tok.shortname SymType.SymTypeOutputParam) ∧
    (example_compiler.write_oso_file example_env "s.oso").text[18]? =
      some (Tok.shortname SymType.SymTypeLocal) ∧ 12 < 18 :=
  ⟨by decide, by decide,
   C1_params_before_nonparams example_compiler example_env "s.oso" 12 18
     SymType.SymTypeOutputParam SymType.SymTypeLocal (by decide) (by decide) rfl rfl⟩

/-! ## The driver: the error flag and the gating of the stages -/

theorem same_but_cursor_refl (x : OSLCompilerImpl) : same_but_cursor x x :=
  ⟨rfl, rfl, rfl, rfl, rfl, rfl⟩

theorem same_but_cursor_trans {x y z : OSLCompilerImpl} (h1 : same_but_cursor x y)
    (h2 : same_but_cursor y z) : same_but_cursor x z := by
  unfold same_but_cursor at *
  refine ⟨h2.1.trans h1.1, h2.2.1.trans h1.2.1, h2.2.2.1.trans h1.2.2.1, ?_, ?_, ?_⟩
  · exact h2.2.2.2.1.trans h1.2.2.2.1
  · exact h2.2.2.2.2.1.trans h1.2.2.2.2.1
  · exact h2.2.2.2.2.2.trans h1.2.2.2.2.2

theorem retrieve_source_read_same {c : OSLCompilerImpl} {buf0 : List Char} {line : Int}
    {r : String × OSLCompilerImpl}
    (h : c.retrieve_source_read buf0 line = some r) : same_but_cursor c r.2 := by
  unfold OSLCompilerImpl.retrieve_source_read at h
  split at h
  · split at h
    · cases h
    · split at h
      · cases h
      · cases h
        exact same_but_cursor_refl c
  · cases h
    exact ⟨rfl, rfl, rfl, rfl, rfl, rfl⟩

theorem retrieve_source_same {c : OSLCompilerImpl} {env : Env} {buf0 : List Char}
    {filename : ustring} {line : Int} {r : String × OSLCompilerImpl}
    (h : c.retrieve_source env buf0 filename line = some r) : same_but_cursor c r.2 := by
  unfold OSLCompilerImpl.retrieve_source at h
  split at h
  · split at h
    · cases h
    · split at h
      · cases h
        exact ⟨rfl, rfl, rfl, rfl, rfl, rfl⟩
      · have h2 := retrieve_source_read_same h
        exact ⟨h2.1, h2.2.1, h2.2.2.1, h2.2.2.2.1, h2.2.2.2.2.1, h2.2.2.2.2.2⟩
  · exact retrieve_source_read_same h

theorem write_oso_source_comment_same {env : Env} {c : OSLCompilerImpl} {idx : Nat}
    {op : IROpcode} {lastfile : ustring} {lastline : Int} {d : Emit × OSLCompilerImpl}
    (h : write_oso_source_comment env c idx op lastfile lastline = some d) :
    same_but_cursor c d.2 := by
  unfold write_oso_source_comment at h
  split at h
  · split at h
    · split at h
      · exact absurd h (by simp)
      · rename_i r hr
        simp only [Option.some.injEq] at h
        rw [← h]
        exact retrieve_source_same hr
    · simp only [Option.some.injEq] at h
      rw [← h]
      exact same_but_cursor_refl c
  · simp only [Option.some.injEq] at h
    rw [← h]
    exact same_but_cursor_refl c

theorem write_oso_code_same (env : Env) (ops : List IROpcode) (idx : Nat) (lastline : Int)
    (lastfile lastmethod : ustring) (c : OSLCompilerImpl) :
    same_but_cursor c (write_oso_code env ops idx lastline lastfile lastmethod c).2 := by
  induction ops generalizing idx lastline lastfile lastmethod c with
  | nil => exact same_but_cursor_refl c
  | cons op rest ih =>
    unfold write_oso_code
    simp only
    split
    · exact same_but_cursor_refl c
    · rename_i d hd
      exact same_but_cursor_trans (write_oso_source_comment_same hd) (ih _ _ _ _ _)

theorem write_oso_body_same (c : OSLCompilerImpl) (env : Env) :
    same_but_cursor c (c.write_oso_body env).2 := by
  unfold OSLCompilerImpl.write_oso_body
  simp only
  split
  · exact same_but_cursor_refl c
  · exact write_oso_code_same _ _ _ _ _ _ _

theorem trace_gated_errors {l : List Event} (h : ∀ e ∈ l, e = Event.error) (err : Bool) :
    trace_gated err l := by
  induction l generalizing err with
  | nil => trivial
  | cons e rest ih =>
    have he := h e (List.mem_cons_self _ _)
    subst he
    exact ih (fun e he => h e (List.mem_cons_of_mem _ he)) true

theorem trace_gated_append {l1 l2 : List Event} {err : Bool} (h1 : trace_gated err l1)
    (h2 : trace_gated (err || decide (Event.error ∈ l1)) l2) : trace_gated err (l1 ++ l2) := by
  induction l1 generalizing err with
  | nil => simpa using h2
  | cons e rest ih =>
    cases e with
    | error =>
      refine @ih true h1 ?_
      simpa using h2
    | stage s =>
      refine ⟨h1.1, ih h1.2 ?_⟩
      simpa using h2

theorem trace_gated_forall {l : List Event} {err : Bool} (h : trace_gated err l)
    (pre post : List Event) (st : Stage) (hl : l = pre ++ Event.stage st :: post)
    (hst : st ≠ Stage.parse) : err = false ∧ Event.error ∉ pre := by
  induction pre generalizing l err with
  | nil =>
    subst hl
    rcases h.1 with h1 | h1
    · exact absurd h1 hst
    · exact ⟨h1, by simp⟩
  | cons e rest ih =>
    subst hl
    cases e with
    | error =>
      have := (@ih (rest ++ Event.stage st :: post) true h rfl).1
      exact absurd this (by simp)
    | stage s =>
      have h2 := @ih (rest ++ Event.stage st :: post) err h.2 rfl
      exact ⟨h2.1, by simpa using h2.2⟩

theorem Step.refl (x : OSLCompilerImpl) : Step x x [] :=
  ⟨by simp, by simp, trivial, fun _ => rfl⟩

theorem Step.trans {x y z : OSLCompilerImpl} {l1 l2 : List Event} (h1 : Step x y l1)
    (h2 : Step y z l2) : Step x z (l1 ++ l2) := by
  obtain ⟨a1, a2, a3, a4⟩ := h1
  obtain ⟨b1, b2, b3, b4⟩ := h2
  refine ⟨?_, ?_, ?_, ?_⟩
  · rw [b1, a1, List.append_assoc]
  · rw [b2, a2]
    simp only [List.mem_append, Bool.decide_or, Bool.or_assoc]
  · exact trace_gated_append a3 (a2 ▸ b3)
  · intro hs
    simp only [List.mem_append, not_or] at hs
    rw [b4 hs.2, a4 hs.1]

theorem Step.of_fields {x y : OSLCompilerImpl} (h1 : y.trace = x.trace) (h2 : y.m_err = x.m_err)
    (h3 : y.osofiles = x.osofiles) : Step x y [] :=
  ⟨by simp [h1], by simp [h2], trivial, fun _ => h3⟩

theorem foldl_report (diags : List Diag) (y : OSLCompilerImpl) :
    ∃ l, (∀ e ∈ l, e = Event.error) ∧
      (diags.foldl OSLCompilerImpl.report y).trace = y.trace ++ l ∧
      (diags.foldl OSLCompilerImpl.report y).m_err = (y.m_err || decide (Event.error ∈ l)) ∧
      (diags.foldl OSLCompilerImpl.report y).osofiles = y.osofiles ∧
      (diags.foldl OSLCompilerImpl.report y).oslcompiler = y.oslcompiler := by
  induction diags generalizing y with
  | nil => exact ⟨[], by simp, by simp, by simp, rfl, rfl⟩
  | cons d rest ih =>
    cases d with
    | error f ln m =>
      obtain ⟨l, h1, h2, h3, h4, h5⟩ := ih (y.error f ln m)
      refine ⟨Event.error :: l, ?_, ?_, ?_, ?_, ?_⟩
      · intro e he
        rcases List.mem_cons.mp he with he | he
        · exact he
        · exact h1 e he
      · simp only [List.foldl_cons, OSLCompilerImpl.report, h2]
        simp [OSLCompilerImpl.error]
      · simp only [List.foldl_cons, OSLCompilerImpl.report, h3]
        simp [OSLCompilerImpl.error]
      · simp only [List.foldl_cons, OSLCompilerImpl.report, h4]
        rfl
      · simp only [List.foldl_cons, OSLCompilerImpl.report, h5]
        rfl
    | warning f ln m =>
      obtain ⟨l, h1, h2, h3, h4, h5⟩ := ih (y.warning f ln m)
      refine ⟨l, h1, ?_, ?_, ?_, ?_⟩
      · simp only [List.foldl_cons, OSLCompilerImpl.report, h2]
        rfl
      · simp only [List.foldl_cons, OSLCompilerImpl.report, h3]
        rfl
      · simp only [List.foldl_cons, OSLCompilerImpl.report, h4]
        rfl
      · simp only [List.foldl_cons, OSLCompilerImpl.report, h5]
        rfl

theorem run_stage_step (x : OSLCompilerImpl) (s : Stage) (r : StageResult)
    (hgate : s = Stage.parse ∨ x.m_err = false) :
    ∃ l, Step x (x.run_stage s r) (Event.stage s :: l) ∧ (∀ e ∈ l, e = Event.error) ∧
      (x.run_stage s r).oslcompiler = x.oslcompiler := by
  unfold OSLCompilerImpl.run_stage
  obtain ⟨l, h1, h2, h3, h4, h5⟩ := foldl_report r.diags
    { x with m_shader := r.m_shader, m_symtab := r.m_symtab, m_ircode := r.m_ircode,
             trace := x.trace ++ [Event.stage s] }
  refine ⟨l, ⟨?_, ?_, ?_, ?_⟩, h1, ?_⟩
  · rw [h2]
    simp
  · rw [h3]
    simp
  · exact ⟨hgate, trace_gated_errors h1 _⟩
  · intro _
    rw [h4]
  · rw [h5]

theorem compile_options_fields (options : List String) (c : OSLCompilerImpl) (cmd : String) :
    (OSLCompilerImpl.compile_options options c cmd).1.trace = c.trace ∧
    (OSLCompilerImpl.compile_options options c cmd).1.m_err = c.m_err ∧
    (OSLCompilerImpl.compile_options options c cmd).1.osofiles = c.osofiles ∧
    (OSLCompilerImpl.compile_options options c cmd).1.oslcompiler = c.oslcompiler := by
  induction options generalizing c cmd with
  | nil => exact ⟨rfl, rfl, rfl, rfl⟩
  | cons o rest ih =>
    unfold OSLCompilerImpl.compile_options
    split
    · exact ih _ _
    · split
      · exact ih _ _
      · exact ih _ _

theorem write_oso_file_step (c : OSLCompilerImpl) (env : Env) (outfilename : String)
    (hok : (c.write_oso_file env outfilename).aborted = false) :
    ∃ l, (∀ e ∈ l, e = Event.error) ∧
      (c.write_oso_file env outfilename).state.trace = c.trace ++ l ∧
      (c.write_oso_file env outfilename).state.m_err = (c.m_err || decide (Event.error ∈ l)) ∧
      (c.write_oso_file env outfilename).state.oslcompiler = c.oslcompiler := by
  cases hf : c.m_osofile
  · cases ho : env.fopen_w outfilename
    · refine ⟨[Event.error], by simp, ?_, ?_, ?_⟩ <;>
        simp [OSLCompilerImpl.write_oso_file, hf, ho, OSLCompilerImpl.error]
    · have hsame := write_oso_body_same { c with m_osofile := true } env
      obtain ⟨s1, s2, _, s4, _, _⟩ := hsame
      refine ⟨[], by simp, ?_, ?_, ?_⟩ <;>
        simp only [OSLCompilerImpl.write_oso_file, hf, ho, Bool.false_eq_true,
          Bool.true_eq_false, if_false] <;>
        split <;> simp [s1, s2, s4]
  · simp [OSLCompilerImpl.write_oso_file, hf] at hok

theorem compile_typecheck_step {x y : OSLCompilerImpl} {env : Env}
    (h : x.compile_typecheck env = some y) :
    ∃ l, Step x y l ∧ y.oslcompiler = x.oslcompiler := by
  unfold OSLCompilerImpl.compile_typecheck at h
  split at h
  · rename_i he
    split at h
    · cases h
    · cases h
      obtain ⟨l, hl, _, ho⟩ := run_stage_step x Stage.typecheck (env.typecheck x) (Or.inr he)
      exact ⟨_, hl, ho⟩
  · cases h
    exact ⟨[], Step.refl x, rfl⟩

theorem compile_debug_print_eq {x y : OSLCompilerImpl} (h : x.compile_debug_print = some y) :
    y = x := by
  unfold OSLCompilerImpl.compile_debug_print at h
  split at h
  · split at h
    · cases h
    · cases h
      rfl
  · cases h
    rfl

theorem compile_codegen_step {x y : OSLCompilerImpl} {env : Env}
    (h : x.compile_codegen env = some y) :
    ∃ l, Step x y l ∧ y.oslcompiler = x.oslcompiler := by
  unfold OSLCompilerImpl.compile_codegen at h
  split at h
  · rename_i he
    split at h
    · cases h
    · cases h
      obtain ⟨l, hl, _, ho⟩ := run_stage_step x Stage.codegen (env.codegen x) (Or.inr he)
      exact ⟨_, hl, ho⟩
  · cases h
    exact ⟨[], Step.refl x, rfl⟩

theorem compile_serialize_step {x y : OSLCompilerImpl} {env : Env} {filename : String}
    (h : x.compile_serialize env filename = some y) :
    ∃ l, Step x y l ∧ y.oslcompiler = x.oslcompiler := by
  unfold OSLCompilerImpl.compile_serialize at h
  split at h
  · rename_i he
    simp only at h
    split at h
    · cases h
    · rename_i hab
      simp only [Bool.not_eq_true] at hab
      cases h
      obtain ⟨l, h1, h2, h3, h4⟩ := write_oso_file_step _ env _ hab
      have he2 : x.m_err = false := he
      refine ⟨Event.stage Stage.serialize :: l, ⟨?_, ?_, ?_, ?_⟩, h4⟩
      · rw [h2]
        simp
      · rw [h3]
        simp
      · exact ⟨Or.inr he2, trace_gated_errors h1 _⟩
      · intro hs
        exact absurd (List.mem_cons_self _ _) hs
  · cases h
    exact ⟨[], Step.refl x, rfl⟩

/-- What `compile()` does when it returns: the result is the negation of the flag left, the
trace grew by gated steps, and the global reference is cleared if the pipe opened and
untouched otherwise. -/
theorem compile_returns {c c' : OSLCompilerImpl} {env : Env} {this : Ptr} {filename : String}
    {options : List String} {b : Bool}
    (h : c.compile env this filename options = some (b, c')) :
    b = !c'.m_err ∧ (∃ l, Step c c' l) ∧
    (env.pipe_opens (c.cppcommand filename options) = true → c'.oslcompiler = none) ∧
    (env.pipe_opens (c.cppcommand filename options) = false →
      c'.oslcompiler = c.oslcompiler) := by
  obtain ⟨o1, o2, o3, o4⟩ := compile_options_fields options c OSLCompilerImpl.cpp_prefix_text
  have hopt : Step c (OSLCompilerImpl.compile_options options c
      OSLCompilerImpl.cpp_prefix_text).1 [] := Step.of_fields o1 o2 o3
  unfold OSLCompilerImpl.compile at h
  simp only at h
  split at h
  · rename_i hp
    split at h
    · cases h
    · rename_i c2 h2
      split at h
      · cases h
      · rename_i c3 h3
        split at h
        · cases h
        · rename_i c4 h4
          split at h
          · cases h
          · rename_i c5 h5
            simp only [Option.some.injEq, Prod.mk.injEq] at h
            obtain ⟨hb, hc⟩ := h
            subst hc
            subst hb
            have hset : Step (OSLCompilerImpl.compile_options options c
                OSLCompilerImpl.cpp_prefix_text).1
                { (OSLCompilerImpl.compile_options options c
                    OSLCompilerImpl.cpp_prefix_text).1 with oslcompiler := some this } [] :=
              Step.of_fields rfl rfl rfl
            obtain ⟨l1, s1, _, _⟩ := run_stage_step
              { (OSLCompilerImpl.compile_options options c
                  OSLCompilerImpl.cpp_prefix_text).1 with oslcompiler := some this }
              Stage.parse (env.oslparse (c.cppcommand filename options)
                { (OSLCompilerImpl.compile_options options c
                    OSLCompilerImpl.cpp_prefix_text).1 with oslcompiler := some this })
              (Or.inl rfl)
            obtain ⟨l2, s2, _⟩ := compile_typecheck_step h2
            have e3 := compile_debug_print_eq h3
            subst e3
            obtain ⟨l4, s4, _⟩ := compile_codegen_step h4
            obtain ⟨l5, s5, _⟩ := compile_serialize_step h5
            have hclear : Step c5 { c5 with oslcompiler := none } [] :=
              Step.of_fields rfl rfl rfl
            refine ⟨rfl, ⟨_, (((((hopt.trans hset).trans s1).trans s2).trans s4).trans
              s5).trans hclear⟩, fun _ => rfl, fun hn => ?_⟩
            rw [hp] at hn
            exact absurd hn (by simp)
  · rename_i hp
    simp only [Option.some.injEq, Prod.mk.injEq] at h
    obtain ⟨hb, hc⟩ := h
    subst hc
    subst hb
    refine ⟨rfl, ⟨_, hopt⟩, fun hy => absurd hy hp, fun _ => o4⟩

/-- C6: when `compile()` returns, it returns failure if and only if the error flag is set at
that time, whatever the file name, the options and the stages did; a flag already set on entry
and any call of `error()` during the call (an `Event.error` among the events `l` it appended to
the trace) force the result `false`.  When the preprocessor pipe does not open, `compile()`
does return, with the negation of the flag. -/
theorem C6_compile_fails_iff_error (c : OSLCompilerImpl) (env : Env) (this : Ptr)
    (filename : String) (options : List String) :
    (∀ b c', c.compile env this filename options = some (b, c') →
      (b = false ↔ c'.m_err = true) ∧
      (c.m_err = true → b = false) ∧
      (∀ l, c'.trace = c.trace ++ l → Event.error ∈ l → b = false)) ∧
    (env.pipe_opens (c.cppcommand filename options) = false →
      ∃ c', c.compile env this filename options = some (!c.m_err, c')) := by
  constructor
  · intro b c' h
    obtain ⟨hb, ⟨l0, h1, h2, _, _⟩, _, _⟩ := compile_returns h
    refine ⟨?_, ?_, ?_⟩
    · rw [hb]
      cases c'.m_err <;> simp
    · intro he
      rw [hb, h2, he]
      rfl
    · intro l hl hmem
      have : l = l0 := List.append_cancel_left (hl.symm.trans h1)
      subst this
      rw [hb, h2]
      simp [hmem]
  · intro hp
    refine ⟨(OSLCompilerImpl.compile_options options c OSLCompilerImpl.cpp_prefix_text).1, ?_⟩
    unfold OSLCompilerImpl.compile
    simp only [hp, Bool.false_eq_true, if_false, OSLCompilerImpl.error_encountered,
      (compile_options_fields options c OSLCompilerImpl.cpp_prefix_text).2.1]

theorem C6_compile_fails_iff_error_witness :
    ∃ b c', example_compiler.compile example_env_type_error 1 "s.osl" [] = some (b, c') ∧
      b = false ∧ ((b = false ↔ c'.m_err = true) ∧
      (example_compiler.m_err = true → b = false) ∧
      (∀ l, c'.trace = example_compiler.trace ++ l → Event.error ∈ l → b = false)) :=
  ⟨_, _, rfl, rfl,
    (C6_compile_fails_iff_error example_compiler example_env_type_error 1 "s.osl" []).1 _ _ rfl⟩

/-- C7: when `compile()` returns, having appended the events `l` to the trace: every start of
typecheck, codegen or the serializer in `l` has the flag clear on entry of `compile()` and no
call of `error()` before it in `l`; hence once `error()` was called before codegen (or the
serializer) started, that stage is not started at all, and when the serializer is not started
the object files are those that existed on entry. -/
theorem C7_later_stages_gated (c c' : OSLCompilerImpl) (env : Env) (this : Ptr)
    (filename : String) (options : List String) (b : Bool) (l : List Event)
    (h : c.compile env this filename options = some (b, c'))
    (hl : c'.trace = c.trace ++ l) :
    (∀ pre post st, l = pre ++ Event.stage st :: post → st ≠ Stage.parse →
      c.m_err = false ∧ Event.error ∉ pre) ∧
    (∀ pre post st, l = pre ++ Event.error :: post → st ≠ Stage.parse →
      Event.stage st ∉ pre → Event.stage st ∉ l) ∧
    (Event.stage Stage.serialize ∉ l → c'.osofiles = c.osofiles) := by
  obtain ⟨_, ⟨l0, h1, _, h3, h4⟩, _, _⟩ := compile_returns h
  have : l = l0 := List.append_cancel_left (hl.symm.trans h1)
  subst this
  refine ⟨fun pre post st hdec hst => trace_gated_forall h3 pre post st hdec hst, ?_, h4⟩
  intro pre post st hdec hst hpre hmem
  rw [hdec] at hmem
  rcases List.mem_append.mp hmem with hm | hm
  · exact hpre hm
  · rcases List.mem_cons.mp hm with hm | hm
    · cases hm
    · obtain ⟨p1, p2, hp⟩ := List.append_of_mem hm
      have hdec2 : l = (pre ++ Event.error :: p1) ++ Event.stage st :: p2 := by
        rw [hdec, hp]
        simp
      have := (trace_gated_forall h3 _ _ st hdec2 hst).2
      exact this (by simp)

theorem C7_later_stages_gated_witness :
    ∃ b c', example_compiler.compile example_env_type_error 1 "s.osl" [] = some (b, c') ∧
      c'.trace = example_compiler.trace ++
        [Event.stage Stage.parse, Event.stage Stage.typecheck, Event.error] ∧
      c'.osofiles = [] :=
  ⟨_, _, rfl, rfl,
    (C7_later_stages_gated example_compiler _ example_env_type_error 1 "s.osl" [] _
      [Event.stage Stage.parse, Event.stage Stage.typecheck, Event.error] rfl rfl).2.2
      (by decide)⟩

/-- C8 (as amended): when `compile()` returns, the global `oslcompiler` is unset provided the
preprocessor pipe opened or the reference was unset on entry; when the pipe does not open,
`compile()` leaves the reference as it found it. -/
theorem C8_oslcompiler_cleared (c c' : OSLCompilerImpl) (env : Env) (this : Ptr)
    (filename : String) (options : List String) (b : Bool)
    (h : c.compile env this filename options = some (b, c')) :
    ((env.pipe_opens (c.cppcommand filename options) = true ∨ c.oslcompiler = none) →
      c'.oslcompiler = none) ∧
    (env.pipe_opens (c.cppcommand filename options) = false →
      c'.oslcompiler = c.oslcompiler) := by
  obtain ⟨_, _, h1, h2⟩ := compile_returns h
  refine ⟨fun hor => ?_, h2⟩
  cases hp : env.pipe_opens (c.cppcommand filename options)
  · rcases hor with hor | hor
    · rw [hp] at hor
      exact absurd hor (by simp)
    · rw [h2 hp, hor]
  · exact h1 hp

theorem C8_oslcompiler_cleared_witness :
    ∃ b c', example_compiler_stale.compile example_env 1 "s.osl" [] = some (b, c') ∧
      c'.oslcompiler = none :=
  ⟨_, _, rfl,
    (C8_oslcompiler_cleared example_compiler_stale _ example_env 1 "s.osl" [] _ rfl).1
      (Or.inl rfl)⟩

/-- C8 (as stated) fails: started with the global reference set (to the object at address 7)
and a preprocessor pipe that does not open, `compile()` returns with the reference still set. -/
theorem C8_oslcompiler_counterexample :
    ∃ b c', example_compiler_stale.compile example_env_no_pipe 1 "s.osl" [] = some (b, c') ∧
      c'.oslcompiler = some 7 :=
  ⟨_, _, rfl, rfl⟩

/-! ## The source cursor -/

theorem newline_ne_NUL : newline ≠ NUL := by decide

theorem fgets_chars_line (n : Nat) (text : List Char) (h : (first_line text).length < n) :
    fgets_chars n text = (raw_line text, drop_line text) := by
  induction text generalizing n with
  | nil => cases n <;> rfl
  | cons ch rest ih =>
    cases n with
    | zero => exact absurd h (Nat.not_lt_zero _)
    | succ m =>
      unfold fgets_chars raw_line drop_line
      by_cases hc : ch = newline
      · simp [hc]
      · have hlen : (first_line rest).length < m := by
          simp only [first_line, hc, if_false, List.length_cons] at h
          omega
        simp [hc, ih m hlen]

theorem newline_not_mem_first_line (text : List Char) : newline ∉ first_line text := by
  induction text with
  | nil => simp [first_line]
  | cons ch rest ih =>
    unfold first_line
    by_cases hc : ch = newline
    · simp [hc]
    · simp only [hc, if_false, List.mem_cons, not_or]
      exact ⟨fun h => hc h.symm, ih⟩

theorem raw_line_cases (text : List Char) :
    raw_line text = first_line text ++ [newline] ∨ raw_line text = first_line text := by
  induction text with
  | nil => exact Or.inr rfl
  | cons ch rest ih =>
    unfold raw_line first_line
    by_cases hc : ch = newline
    · simp [hc]
    · rcases ih with ih | ih <;> simp [hc, ih]

theorem c_str_of_no_NUL {l : List Char} (h : NUL ∉ l) : c_str l = l := by
  unfold c_str
  rw [List.takeWhile_eq_self_iff]
  intro x hx
  simp only [ne_eq, decide_not, Bool.not_eq_true', decide_eq_false_iff_not]
  intro hxn
  exact h (hxn ▸ hx)

theorem strip_newline_raw_line (text : List Char) (h : NUL ∉ first_line text) :
    strip_newline (raw_line text) = String.mk (first_line text) := by
  unfold strip_newline
  rcases raw_line_cases text with hr | hr
  · have hn : NUL ∉ first_line text ++ [newline] := by
      simp only [List.mem_append, List.mem_singleton, not_or]
      exact ⟨h, fun e => newline_ne_NUL e.symm⟩
    rw [hr, c_str_of_no_NUL hn]
    simp
  · rw [hr, c_str_of_no_NUL h]
    have hlast : (first_line text).getLast? ≠ some newline := by
      intro hl
      exact newline_not_mem_first_line text (List.mem_of_mem_getLast? hl)
    simp [hlast]

theorem line_text_succ_succ {text : List Char} {k : Nat} {t : List Char}
    (h : line_text text (k + 2) = some t) :
    text ≠ [] ∧ line_text (drop_line text) (k + 1) = some t := by
  unfold line_text at h
  by_cases he : text = []
  · simp [he] at h
  · simp only [he, if_false, Nat.add_eq_zero, one_ne_zero, and_false] at h
    exact ⟨he, h⟩

theorem line_text_one {text : List Char} {t : List Char} (h : line_text text 1 = some t) :
    text ≠ [] ∧ t = first_line text := by
  unfold line_text at h
  by_cases he : text = []
  · simp [he] at h
  · simp only [he, if_false, if_true, Option.some.injEq] at h
    exact ⟨he, h.symm⟩

theorem line_text_one_of_ne {text : List Char} (h : text ≠ []) :
    line_text text 1 = some (first_line text) := by
  unfold line_text
  simp [h]

theorem fgets_of_short {text content : List Char} (hne : text ≠ [])
    (hshort : (first_line text).length ≤ 10238) :
    fgets 10240 ⟨content, text⟩ = some (raw_line text, ⟨content, drop_line text⟩) := by
  unfold fgets
  cases text with
  | nil => exact absurd rfl hne
  | cons ch rest =>
    simp only
    rw [fgets_chars_line (10240 - 1) (ch :: rest) (by omega)]

/-- Reading `k + 1` lines from the start of `text` leaves the raw line `k + 1` in the buffer,
when the lines read are short enough for the buffer. -/
theorem read_lines_line (k : Nat) (text content buf t : List Char)
    (ht : line_text text (k + 1) = some t)
    (hshort : ∀ j t', j ≤ k + 1 → line_text text j = some t' → t'.length ≤ 10238)
    (hnul : NUL ∉ t) :
    strip_newline (read_lines (k + 1) buf ⟨content, text⟩).1 = String.mk t := by
  induction k generalizing text buf with
  | zero =>
    obtain ⟨hne, hte⟩ := line_text_one ht
    have hs := hshort 1 t (Nat.le_refl _) ht
    subst hte
    unfold read_lines
    rw [fgets_of_short hne hs]
    simp only [read_lines]
    exact strip_newline_raw_line text hnul
  | succ k ih =>
    obtain ⟨hne, hrest⟩ := line_text_succ_succ ht
    have hs := hshort 1 _ (by omega) (line_text_one_of_ne hne)
    unfold read_lines
    rw [fgets_of_short hne hs]
    simp only
    refine ih (drop_line text) (raw_line text) hrest ?_
    intro j t' hj ht'
    cases j with
    | zero => simp [line_text] at ht'
    | succ j =>
      refine hshort (j + 2) t' (by omega) ?_
      unfold line_text
      simp [hne, ht']

theorem fgets_content {f : FILE} {r : List Char × FILE} (h : fgets 10240 f = some r) :
    r.2.content = f.content := by
  unfold fgets at h
  split at h
  · cases h
  · cases h
    rfl

theorem read_lines_content (n : Nat) (buf : List Char) (f : FILE) :
    (read_lines n buf f).2.content = f.content := by
  induction n generalizing buf f with
  | zero => rfl
  | succ n ih =>
    unfold read_lines
    split
    · exact ih _ _
    · rename_i r hr
      rw [ih, fgets_content hr]

/-- A request for line `n >= 1` of the open file, from a cursor that stands at the start of the
file or past line `n`: `n` reads from the start of the file, and the cursor stands at line
`n`. -/
theorem retrieve_source_read_rescan (x : OSLCompilerImpl) (f : FILE) (buf : List Char)
    (n : Nat) (hf : x.m_sourcefile = some f)
    (hpos : (x.m_last_sourceline = 0 ∧ f.rest = f.content) ∨ (n : Int) < x.m_last_sourceline)
    (hn : 1 ≤ n) :
    ∃ x', x.retrieve_source_read buf (n : Int) =
        some (strip_newline (read_lines n buf ⟨f.content, f.content⟩).1, x') ∧
      (∃ f', x'.m_sourcefile = some f' ∧ f'.content = f.content) ∧
      x'.m_last_sourceline = (n : Int) ∧ x'.m_last_sourcefile = x.m_last_sourcefile := by
  unfold OSLCompilerImpl.retrieve_source_read
  rw [hf]
  simp only
  have hfile : (if x.m_last_sourceline > (n : Int)
      then ({ f with rest := f.content } : FILE) else f) = ⟨f.content, f.content⟩ := by
    rcases hpos with ⟨_, h2⟩ | h
    · split
      · rfl
      · cases f
        simp_all
    · rw [if_pos h]
  have hlast : (if x.m_last_sourceline > (n : Int) then (0 : Int)
      else x.m_last_sourceline) = 0 := by
    rcases hpos with ⟨h1, _⟩ | h
    · simp [h1]
    · rw [if_pos h]
  rw [hfile, hlast]
  have hcount : ((n : Int) - 0).toNat = n := by omega
  have hpos2 : (0 : Int) < (n : Int) := by omega
  rw [hcount, if_pos hpos2]
  exact ⟨_, rfl, ⟨_, rfl, read_lines_content _ _ _⟩, rfl, rfl⟩

/-- From a fresh cursor, a request for line `a` of a readable file and then for an earlier line
`b`: each reads its number of lines from the start of the file. -/
theorem retrieve_source_twice (c : OSLCompilerImpl) (env : Env) (path : String)
    (content buf0 buf1 : List Char) (a b : Nat)
    (hfresh : fresh_cursor c) (hfile : env.fopen_r path = some content)
    (hb : 1 ≤ b) (hab : b < a) :
    ∃ c1 c2, c.retrieve_source env buf0 (some path) (a : Int) =
        some (strip_newline (read_lines a buf0 ⟨content, content⟩).1, c1) ∧
      c1.retrieve_source env buf1 (some path) (b : Int) =
        some (strip_newline (read_lines b buf1 ⟨content, content⟩).1, c2) := by
  obtain ⟨h1, h2, h3⟩ := hfresh
  obtain ⟨c1, hc1, ⟨f1, hf1, hcont1⟩, hline1, hname1⟩ :=
    retrieve_source_read_rescan
      { c with m_sourcefile := some ⟨content, content⟩, m_last_sourcefile := some path }
      ⟨content, content⟩ buf0 a rfl (Or.inl ⟨h3, rfl⟩) (by omega)
  obtain ⟨c2, hc2, _⟩ :=
    retrieve_source_read_rescan c1 f1 buf1 b hf1 (Or.inr (by rw [hline1]; omega)) hb
  rw [hcont1] at hc2
  refine ⟨c1, c2, ?_, ?_⟩
  · unfold OSLCompilerImpl.retrieve_source
    simp only [h2, ne_eq, reduceCtorEq, not_false_eq_true, if_true, hfile]
    exact hc1
  · unfold OSLCompilerImpl.retrieve_source
    have hsame : ¬ (some path ≠ c1.m_last_sourcefile) := by
      rw [hname1]
      simp
    simp only [hsame, if_false]
    exact hc2

/-- C9 (as amended): from a fresh cursor and for a readable file, lines `a > b >= 1` inside the
file, where each of the first `a` lines has at most 10238 characters (so that it fits the line
buffer with its newline) and the two requested lines hold no NUL character: the request for
line `a` returns the text of line `a`, and the following request for line `b` returns the text
of line `b`, both without the trailing newline. -/
theorem C9_line_then_earlier_line (c : OSLCompilerImpl) (env : Env) (path : String)
    (content ta tb buf0 buf1 : List Char) (a b : Nat)
    (hfresh : fresh_cursor c) (hfile : env.fopen_r path = some content)
    (hb : 1 ≤ b) (hab : b < a)
    (hta : line_text content a = some ta) (htb : line_text content b = some tb)
    (hshort : ∀ j t, j ≤ a → line_text content j = some t → t.length ≤ 10238)
    (hnul : NUL ∉ ta ∧ NUL ∉ tb) :
    ∃ c1 c2, c.retrieve_source env buf0 (some path) (a : Int) = some (String.mk ta, c1) ∧
      c1.retrieve_source env buf1 (some path) (b : Int) = some (String.mk tb, c2) := by
  obtain ⟨c1, c2, h1, h2⟩ := retrieve_source_twice c env path content buf0 buf1 a b hfresh
    hfile hb hab
  obtain ⟨ka, rfl⟩ : ∃ k, a = k + 1 := ⟨a - 1, by omega⟩
  obtain ⟨kb, rfl⟩ : ∃ k, b = k + 1 := ⟨b - 1, by omega⟩
  rw [read_lines_line ka content content buf0 ta hta hshort hnul.1] at h1
  rw [read_lines_line kb content content buf1 tb htb
    (fun j t hj ht => hshort j t (by omega) ht) hnul.2] at h2
  exact ⟨c1, c2, h1, h2⟩

theorem C9_line_then_earlier_line_witness :
    ∃ c1 c2, example_compiler.retrieve_source example_env_source "junk".toList
        (some "test.osl") ((5 : Nat) : Int) = some (String.mk "e = 5;".toList, c1) ∧
      c1.retrieve_source example_env_source "junk".toList (some "test.osl") ((3 : Nat) : Int) =
        some (String.mk "c = 3;".toList, c2) :=
  C9_line_then_earlier_line example_compiler example_env_source "test.osl" example_source
    "e = 5;".toList "c = 3;".toList "junk".toList "junk".toList 5 3 ⟨rfl, rfl, rfl⟩ rfl
    (by decide) (by decide) (by decide) (by decide)
    (by
      intro j t hj ht
      have h5 : j = 0 ∨ j = 1 ∨ j = 2 ∨ j = 3 ∨ j = 4 ∨ j = 5 := by omega
      rcases h5 with h | h | h | h | h | h <;> subst h <;>
        simp [line_text, example_source, drop_line, first_line, newline] at ht <;>
        subst ht <;> decide)
    (by decide)

theorem fgets_chars_replicate (n : Nat) (rest : List Char) :
    fgets_chars n (List.replicate n 'a' ++ rest) = (List.replicate n 'a', rest) := by
  induction n with
  | zero => rfl
  | succ n ih =>
    rw [List.replicate_succ, List.cons_append]
    unfold fgets_chars
    have hne : ¬ ('a' = newline) := by decide
    simp only [hne, if_false]
    rw [ih]

theorem drop_line_replicate (n : Nat) (rest : List Char) :
    drop_line (List.replicate n 'a' ++ newline :: rest) = rest := by
  induction n with
  | zero => simp [drop_line]
  | succ n ih =>
    rw [List.replicate_succ, List.cons_append]
    unfold drop_line
    have hne : ¬ ('a' = newline) := by decide
    simp only [hne, if_false]
    exact ih

theorem read_lines_long (content buf : List Char) :
    strip_newline (read_lines 5 buf ⟨content, example_long_source⟩).1 = "l4" ∧
    strip_newline (read_lines 3 buf ⟨content, example_long_source⟩).1 = "l2" := by
  have hstep : ∀ n, read_lines (n + 1) buf ⟨content, example_long_source⟩ =
      read_lines n (List.replicate 10239 'a') ⟨content, "\nl2\nl3\nl4\nl5\n".toList⟩ := by
    intro n
    have hf : fgets 10240 ⟨content, example_long_source⟩ =
        some (List.replicate 10239 'a', ⟨content, "\nl2\nl3\nl4\nl5\n".toList⟩) := by
      unfold fgets example_long_source
      rw [List.replicate_succ, List.cons_append]
      simp only
      rw [← List.cons_append, ← List.replicate_succ]
      have h := fgets_chars_replicate 10239 "\nl2\nl3\nl4\nl5\n".toList
      simp only [Nat.add_one_sub_one] at h ⊢
      rw [h]
    conv_lhs => unfold read_lines
    rw [hf]
  constructor
  · rw [hstep 4]
    rfl
  · rw [hstep 2]
    rfl

theorem line_text_long :
    line_text example_long_source 5 = some "l5".toList ∧
    line_text example_long_source 3 = some "l3".toList := by
  have hdrop : drop_line example_long_source = "l2\nl3\nl4\nl5\n".toList :=
    drop_line_replicate 10239 "l2\nl3\nl4\nl5\n".toList
  have hne : example_long_source ≠ [] := by
    unfold example_long_source
    rw [List.replicate_succ, List.cons_append]
    exact List.cons_ne_nil _ _
  constructor
  · unfold line_text
    simp only [hne, if_false, hdrop]
    decide
  · unfold line_text
    simp only [hne, if_false, hdrop]
    decide

/-- C9 (as stated) fails on two readable files of five lines.  In `long.osl` the first line has
10239 characters, one more than fits the line buffer with its newline: the requests for line 5
and then line 3 return `l4` and `l2`, the texts of lines 4 and 2.  In `nul.osl` line 3 holds a
NUL character: the request for line 3 after line 5 returns only the part before it. -/
theorem C9_line_then_earlier_line_counterexample :
    (line_text example_long_source 5 = some "l5".toList ∧
     line_text example_long_source 3 = some "l3".toList ∧
     ∃ c1 c2, example_compiler.retrieve_source example_env_odd_sources [] (some "long.osl") 5 =
        some ("l4", c1) ∧
      c1.retrieve_source example_env_odd_sources [] (some "long.osl") 3 = some ("l2", c2)) ∧
    (line_text example_nul_source 3 = some ("x".toList ++ NUL :: "y".toList) ∧
     ∃ c1 c2, example_compiler.retrieve_source example_env_odd_sources [] (some "nul.osl") 5 =
        some ("l5", c1) ∧
      c1.retrieve_source example_env_odd_sources [] (some "nul.osl") 3 = some ("x", c2)) := by
  refine ⟨⟨line_text_long.1, line_text_long.2, ?_⟩, by decide, ⟨_, _, rfl, rfl⟩⟩
  obtain ⟨c1, c2, h1, h2⟩ := retrieve_source_twice example_compiler example_env_odd_sources
    "long.osl" example_long_source [] [] 5 3 ⟨rfl, rfl, rfl⟩ rfl (by decide) (by decide)
  rw [(read_lines_long example_long_source []).1] at h1
  rw [(read_lines_long example_long_source []).2] at h2
  exact ⟨c1, c2, h1, h2⟩

/-- C10, the failing input: from a fresh cursor, the first request for line 1 of `test.osl`
returns its text; the second request for the same line reads nothing (the cursor is neither
behind nor ahead of line 1) and returns what the uninitialized line buffer holds, here
`junk`. -/
theorem C10_same_line_twice_failing :
    ∃ c1 c2, example_compiler.retrieve_source example_env_source [] (some "test.osl") 1 =
        some ("a = 1;", c1) ∧
      c1.retrieve_source example_env_source "junk".toList (some "test.osl") 1 =
        some ("junk", c2) ∧
      line_text example_source 1 = some "a = 1;".toList :=
  ⟨_, _, rfl, rfl, by decide⟩

/-! ## The driver: options, the preprocessor command, the path without a pipe -/

theorem compile_options_cmd (options : List String) (c : OSLCompilerImpl) (cmd : String) :
    (OSLCompilerImpl.compile_options options c cmd).2 =
      cmd ++ spec_forwarded_options options := by
  induction options generalizing c cmd with
  | nil => simp [OSLCompilerImpl.compile_options, spec_forwarded_options]
  | cons o rest ih =>
    unfold OSLCompilerImpl.compile_options
    by_cases hv : o = "-v"
    · simp only [hv, if_true]
      rw [ih]
      simp [spec_forwarded_options, List.filter]
    · by_cases hd : o = "-d"
      · have hdv : ¬ ("-d" = "-v") := by decide
        simp only [hd, hdv, if_true, if_false]
        rw [ih]
        simp [spec_forwarded_options, List.filter]
      · simp only [hv, hd, if_false]
        rw [ih]
        simp [spec_forwarded_options, List.filter, hv, hd, String.append_assoc]

theorem compile_options_modes (options : List String) (c : OSLCompilerImpl) (cmd : String) :
    (OSLCompilerImpl.compile_options options c cmd).1 =
      { c with m_verbose := c.m_verbose || decide ("-v" ∈ options),
               m_debug := c.m_debug || decide ("-d" ∈ options) } := by
  induction options generalizing c cmd with
  | nil =>
    cases c
    simp [OSLCompilerImpl.compile_options]
  | cons o rest ih =>
    unfold OSLCompilerImpl.compile_options
    by_cases hv : o = "-v"
    · simp only [hv, if_true]
      rw [ih]
      simp
    · by_cases hd : o = "-d"
      · have hdv : ¬ ("-d" = "-v") := by decide
        simp only [hd, hdv, if_true, if_false]
        rw [ih]
        simp
      · simp only [hv, hd, if_false]
        rw [ih]
        have hv2 : ¬ ("-v" = o) := fun h => hv h.symm
        have hd2 : ¬ ("-d" = o) := fun h => hd h.symm
        simp [hv2, hd2]

/-- C14 (as amended): the preprocessor command built by `compile()` is the fixed prefix,
followed by each option other than `-v` and `-d` wrapped in double quotes and followed by a
space, in the original order, followed by the double-quoted file name and one more space; and
the option loop leaves the object as it was except that `-v` sets the verbose mode and `-d`
the debug mode. -/
theorem C14_cppcommand_text (c : OSLCompilerImpl) (filename : String)
    (options : List String) :
    c.cppcommand filename options =
      OSLCompilerImpl.cpp_prefix_text ++ spec_forwarded_options options ++
        "\"" ++ filename ++ "\" " ∧
    (OSLCompilerImpl.compile_options options c OSLCompilerImpl.cpp_prefix_text).1 =
      { c with m_verbose := c.m_verbose || decide ("-v" ∈ options),
               m_debug := c.m_debug || decide ("-d" ∈ options) } := by
  refine ⟨?_, compile_options_modes options c _⟩
  unfold OSLCompilerImpl.cppcommand
  rw [compile_options_cmd]

/-- C14 (as stated) fails: for the options `-v -I. -d` and the file `a.osl` the command ends
with a space after the quoted file name, so it is not the prefix, the forwarded options and
the quoted file name alone. -/
theorem C14_cppcommand_counterexample :
    example_compiler.cppcommand "a.osl" ["-v", "-I.", "-d"] =
      "/usr/bin/cpp -xc -nostdinc \"-I.\" \"a.osl\" " ∧
    example_compiler.cppcommand "a.osl" ["-v", "-I.", "-d"] ≠
      OSLCompilerImpl.cpp_prefix_text ++ spec_forwarded_options ["-v", "-I.", "-d"] ++
        "\"" ++ "a.osl" ++ "\"" := by
  constructor <;> decide

/-- C20: when the preprocessor pipe does not open, `compile()` returns the negation of the
flag it found, hence success when the flag was clear on entry; it leaves the object as the
option loop left it: no stage was started, no error recorded, nothing printed, no object file
written, no instruction generated. -/
theorem C20_no_pipe_no_stage (c : OSLCompilerImpl) (env : Env) (this : Ptr)
    (filename : String) (options : List String)
    (hpipe : env.pipe_opens (c.cppcommand filename options) = false) :
    ∃ c', c.compile env this filename options = some (!c.m_err, c') ∧
      c' = { c with m_verbose := c.m_verbose || decide ("-v" ∈ options),
                    m_debug := c.m_debug || decide ("-d" ∈ options) } ∧
      c'.trace = c.trace ∧ c'.m_err = c.m_err ∧ c'.stderr = c.stderr ∧
      c'.osofiles = c.osofiles ∧ c'.m_ircode = c.m_ircode ∧
      (c.m_err = false → c.compile env this filename options = some (true, c')) := by
  have hret : c.compile env this filename options =
      some (!c.m_err, { c with m_verbose := c.m_verbose || decide ("-v" ∈ options),
                               m_debug := c.m_debug || decide ("-d" ∈ options) }) := by
    unfold OSLCompilerImpl.compile
    simp only [hpipe, Bool.false_eq_true, if_false, OSLCompilerImpl.error_encountered,
      compile_options_modes]
  refine ⟨_, hret, rfl, rfl, rfl, rfl, rfl, rfl, fun he => ?_⟩
  rw [hret, he]
  rfl

theorem C20_no_pipe_no_stage_witness :
    ∃ c', example_compiler.compile example_env_no_pipe 1 "s.osl" ["-v"] = some (true, c') ∧
      c'.trace = [] ∧ c'.osofiles = [] :=
  (C20_no_pipe_no_stage example_compiler example_env_no_pipe 1 "s.osl" ["-v"] rfl).elim
    (fun c' h => ⟨c', h.1, h.2.2.1, h.2.2.2.2.2.1⟩)

theorem write_oso_file_flag (c : OSLCompilerImpl) (env : Env) (outfilename : String) :
    (c.write_oso_file env outfilename).state.m_err = true ∨
    (c.write_oso_file env outfilename).state.m_err = c.m_err := by
  cases hf : c.m_osofile
  · cases ho : env.fopen_w outfilename
    · left
      simp [OSLCompilerImpl.write_oso_file, hf, ho, OSLCompilerImpl.error]
    · right
      have hsame := write_oso_body_same { c with m_osofile := true } env
      simp only [OSLCompilerImpl.write_oso_file, hf, ho, Bool.false_eq_true,
        Bool.true_eq_false, if_false]
      split <;> exact hsame.1
  · right
    simp [OSLCompilerImpl.write_oso_file, hf]

theorem foldl_report_warnings (diags : List Diag) (y : OSLCompilerImpl)
    (h : ∀ d ∈ diags, ∃ f l m, d = Diag.warning f l m) :
    (diags.foldl OSLCompilerImpl.report y).m_err = y.m_err := by
  induction diags generalizing y with
  | nil => rfl
  | cons d rest ih =>
    obtain ⟨f, l, m, hd⟩ := h d (List.mem_cons_self _ _)
    subst hd
    simp only [List.foldl_cons, OSLCompilerImpl.report]
    rw [ih _ (fun d hd => h d (List.mem_cons_of_mem _ hd))]
    rfl

/-- C17: the error flag is sticky and only errors set it.  `error()` leaves the flag set;
`warning()` leaves it as it was, and so does a stage that reports only warnings;
`retrieve_source` leaves it as it was; `write_oso_file` and `compile()` never clear a flag
that is set; and when `compile()` returns, the flag is set exactly when it was set on entry or
`error()` was called during the call. -/
theorem C17_error_flag_sticky :
    (∀ (c : OSLCompilerImpl) f l m, (c.error f l m).m_err = true) ∧
    (∀ (c : OSLCompilerImpl) f l m, (c.warning f l m).m_err = c.m_err) ∧
    (∀ (c : OSLCompilerImpl) s r, (∀ d ∈ r.diags, ∃ f l m, d = Diag.warning f l m) →
      (c.run_stage s r).m_err = c.m_err) ∧
    (∀ (c : OSLCompilerImpl) env buf f line r,
      c.retrieve_source env buf f line = some r → r.2.m_err = c.m_err) ∧
    (∀ (c : OSLCompilerImpl) env out,
      c.m_err = true → (c.write_oso_file env out).state.m_err = true) ∧
    (∀ (c c' : OSLCompilerImpl) env this fn opts b,
      c.compile env this fn opts = some (b, c') →
        (c.m_err = true → c'.m_err = true) ∧
        (∀ l, c'.trace = c.trace ++ l → (c'.m_err = true ↔ c.m_err = true ∨ Event.error ∈ l))) := by
  refine ⟨fun _ _ _ _ => rfl, fun _ _ _ _ => rfl, ?_, ?_, ?_, ?_⟩
  · intro c s r h
    unfold OSLCompilerImpl.run_stage
    rw [foldl_report_warnings _ _ h]
  · intro c env buf f line r h
    exact (retrieve_source_same h).1
  · intro c env out he
    rcases write_oso_file_flag c env out with h | h
    · exact h
    · rw [h, he]
  · intro c c' env this fn opts b h
    obtain ⟨_, ⟨l0, h1, h2, _, _⟩, _, _⟩ := compile_returns h
    refine ⟨fun he => ?_, fun l hl => ?_⟩
    · rw [h2, he]
      rfl
    · have : l = l0 := List.append_cancel_left (hl.symm.trans h1)
      subst this
      rw [h2]
      simp

theorem C17_error_flag_sticky_witness :
    ∃ b c', example_compiler_failed.compile example_env 1 "s.osl" [] = some (b, c') ∧
      c'.m_err = true :=
  ⟨_, _, rfl, (C17_error_flag_sticky.2.2.2.2.2 example_compiler_failed _ example_env 1 "s.osl"
    [] _ rfl).1 rfl⟩

/-! ## Metadata -/

theorem TypeSpec.string_class {t : TypeSpec} (h : t.is_string = true) :
    t.is_int = false ∧ t.is_float = false := by
  unfold TypeSpec.is_string at h
  unfold TypeSpec.is_int TypeSpec.is_float
  cases hb : t.base <;> simp_all

/-- C18: for a metadata entry that is a declaration with a symbol, `write_oso_metadata` ends in
the fatal assertion if and only if the entry has no literal node as initializer or the type of
its symbol is none of int, float, string; and for a literal initializer and a type int, float
or string it does not fail and writes one item `%meta{type,name,value} `, the value being the
literal's integer as `%d`, its float as `%g`, or its string between double quotes. -/
theorem C18_metadata_literals_only (metanode : ASTNode) (metavar : ASTvariable_declaration)
    (metasym : Symbol) (hvar : metanode.as_variable_declaration = some metavar)
    (hsym : metavar.sym = some metasym) :
    ((write_oso_metadata metanode).aborted = true ↔
      (metavar.init.head?.bind ASTNode.as_literal = none ∨
       (metasym.typespec.is_int = false ∧ metasym.typespec.is_float = false ∧
        metasym.typespec.is_string = false))) ∧
    (∀ l, metavar.init.head?.bind ASTNode.as_literal = some l →
      (metasym.typespec.is_int = true → write_oso_metadata metanode =
        oso [Tok.lit "%meta\x7b", Tok.typestr metasym.typespec, Tok.lit ",",
             Tok.fmt_s (some metasym.name), Tok.lit ",", Tok.fmt_d l.intval, Tok.lit "\x7d "]) ∧
      (metasym.typespec.is_float = true → write_oso_metadata metanode =
        oso [Tok.lit "%meta\x7b", Tok.typestr metasym.typespec, Tok.lit ",",
             Tok.fmt_s (some metasym.name), Tok.lit ",", Tok.fmt_g l.floatval, Tok.lit "\x7d "]) ∧
      (metasym.typespec.is_string = true → write_oso_metadata metanode =
        oso [Tok.lit "%meta\x7b", Tok.typestr metasym.typespec, Tok.lit ",",
             Tok.fmt_s (some metasym.name), Tok.lit ",", Tok.lit "\"", Tok.fmt_s l.strval,
             Tok.lit "\"", Tok.lit "\x7d "])) := by
  unfold write_oso_metadata
  simp only [hvar, hsym]
  cases hinit : metavar.init.head? with
  | none => simp [Emit.seq, oso, Emit.abort]
  | some init =>
    cases hlit : init.as_literal with
    | none =>
      cases metasym.typespec.is_string <;> cases metasym.typespec.is_int <;>
        cases metasym.typespec.is_float <;> simp [Emit.seq, oso, Emit.abort, hlit]
    | some l =>
      cases hs : metasym.typespec.is_string
      · cases hi : metasym.typespec.is_int
        · cases hf : metasym.typespec.is_float <;> simp [Emit.seq, oso, Emit.abort, hlit]
        · have hf := TypeSpec.int_not_float hi
          simp [Emit.seq, oso, Emit.abort, hlit, hf]
      · obtain ⟨hi, hf⟩ := TypeSpec.string_class hs
        simp [Emit.seq, oso, Emit.abort, hlit, hi, hf]

theorem C18_metadata_literals_only_witness :
    write_oso_metadata example_metadata =
      oso [Tok.lit "%meta\x7b", Tok.typestr ⟨.string, 0, false⟩, Tok.lit ",",
           Tok.fmt_s (some "help"), Tok.lit ",", Tok.lit "\"", Tok.fmt_s (some "diffuse"),
           Tok.lit "\"", Tok.lit "\x7d "] :=
  ((C18_metadata_literals_only example_metadata
    ⟨some (.mk "help" "help" ⟨.string, 0, false⟩ .SymTypeLocal none none none),
     [.literal_node ⟨⟨.string, 0, false⟩, 0, .ofInt 0, some "diffuse"⟩], []⟩
    (.mk "help" "help" ⟨.string, 0, false⟩ .SymTypeLocal none none none) rfl rfl).2
    ⟨⟨.string, 0, false⟩, 0, .ofInt 0, some "diffuse"⟩ rfl).2.2 rfl

/-! ## The instruction loop -/

theorem write_oso_op_args_eq (args : List Symbol) :
    write_oso_op_args args =
      oso (args.flatMap (fun a => [Tok.fmt_s (some a.dealias.mangled), Tok.lit " "])) := by
  induction args with
  | nil => rfl
  | cons a rest ih => simp [write_oso_op_args, ih, Emit.seq, oso]

theorem write_oso_op_jumps_eq (jumps : List Int) :
    write_oso_op_jumps jumps =
      oso ((jumps.filter (fun j => decide (0 ≤ j))).flatMap
        (fun j => [Tok.fmt_d j, Tok.lit " "])) := by
  induction jumps with
  | nil => rfl
  | cons j rest ih =>
    unfold write_oso_op_jumps
    rw [ih]
    by_cases hj : 0 ≤ j
    · simp [hj, List.filter, Emit.seq, oso]
    · simp [hj, List.filter, Emit.seq, oso, Emit.nil]

theorem write_oso_op_eq (op : IROpcode) (lastfile : ustring) (lastline : Int) :
    write_oso_op op lastfile lastline =
      oso (spec_instruction_line op (spec_hints op lastfile lastline)) := by
  unfold write_oso_op spec_instruction_line spec_hints
  rw [write_oso_op_args_eq, write_oso_op_jumps_eq]
  cases hn : op.node with
  | none =>
    by_cases ha : op.args.length = 0 <;> simp [ha, Emit.seq, oso, Emit.nil]
  | some nd =>
    unfold write_oso_op_filename write_oso_op_line
    by_cases ha : op.args.length = 0 <;> by_cases hf : nd.sourcefile = lastfile <;>
      by_cases hl : nd.sourceline = lastline <;>
      simp [ha, hf, hl, Emit.seq, oso, Emit.nil]

theorem write_oso_source_comment_form {env : Env} {c : OSLCompilerImpl} {idx : Nat}
    {op : IROpcode} {lastfile : ustring} {lastline : Int} {d : Emit × OSLCompilerImpl}
    (h : write_oso_source_comment env c idx op lastfile lastline = some d) :
    (d.1 = Emit.nil ∨ ∃ nd src, op.node = some nd ∧ d.1 = source_comment nd src) ∧
    (c.m_debug = false → d.1 = Emit.nil) := by
  unfold write_oso_source_comment at h
  split at h
  · rename_i hdbg hnode
    split at h
    · split at h
      · cases h
      · cases h
        exact ⟨Or.inr ⟨_, _, hnode, rfl⟩, fun hd => absurd (hdbg.symm.trans hd) (by simp)⟩
    · cases h
      exact ⟨Or.inl rfl, fun _ => rfl⟩
  · cases h
    exact ⟨Or.inl rfl, fun _ => rfl⟩

theorem write_oso_code_cons_none {env : Env} {c : OSLCompilerImpl} {idx : Nat}
    {op : IROpcode} {L : LoopLocals} (rest : List IROpcode)
    (h : write_oso_source_comment env c idx op (L.enter op).lastfile (L.enter op).lastline =
      none) :
    (write_oso_code env (op :: rest) idx L.lastline L.lastfile L.lastmethod c).1 =
      (code_label L.lastmethod op).seq Emit.abort := by
  have h2 : write_oso_source_comment env c idx op
      (if L.lastmethod ≠ op.method then none else L.lastfile)
      (if L.lastmethod ≠ op.method then -1 else L.lastline) = none := h
  conv_lhs => unfold write_oso_code
  simp only [h2]
  rfl

theorem write_oso_code_cons_some {env : Env} {c : OSLCompilerImpl} {idx : Nat}
    {op : IROpcode} {L : LoopLocals} {d : Emit × OSLCompilerImpl} (rest : List IROpcode)
    (h : write_oso_source_comment env c idx op (L.enter op).lastfile (L.enter op).lastline =
      some d) :
    (write_oso_code env (op :: rest) idx L.lastline L.lastfile L.lastmethod c).1 =
      (code_label L.lastmethod op).seq (d.1.seq
        ((write_oso_op op (L.enter op).lastfile (L.enter op).lastline).seq
          (write_oso_code env rest (idx + 1) (L.leave op).lastline (L.leave op).lastfile
            (L.leave op).lastmethod d.2).1)) := by
  have h2 : write_oso_source_comment env c idx op
      (if L.lastmethod ≠ op.method then none else L.lastfile)
      (if L.lastmethod ≠ op.method then -1 else L.lastline) = some d := h
  conv_lhs => unfold write_oso_code
  simp only [h2]
  rfl

theorem Emit.seq_text_of_ok {a : Emit} (b : Emit) (h : a.aborted = false) :
    (a.seq b).text = a.text ++ b.text := by
  rw [Emit.seq_text, h]
  rfl

theorem code_label_cases (lastmethod : ustring) (op : IROpcode) :
    (lastmethod ≠ op.method ∧ code_label lastmethod op = oso (label_tokens op.method)) ∨
    (lastmethod = op.method ∧ code_label lastmethod op = Emit.nil) := by
  unfold code_label
  by_cases h : lastmethod = op.method
  · exact Or.inr ⟨h, by simp [h]⟩
  · exact Or.inl ⟨h, by simp [h, label_tokens]⟩

theorem code_label_aborted (lastmethod : ustring) (op : IROpcode) :
    (code_label lastmethod op).aborted = false := by
  rcases code_label_cases lastmethod op with ⟨_, h⟩ | ⟨_, h⟩ <;> rw [h] <;> rfl

theorem locals_after_snoc (pre : List IROpcode) (prev : IROpcode) (L : LoopLocals) :
    locals_after (pre ++ [prev]) L = (locals_after pre L).leave prev := by
  induction pre generalizing L with
  | nil => rfl
  | cons p pre ih =>
    show locals_after (pre ++ [prev]) (L.leave p) = _
    exact ih _

theorem locals_after_lastmethod (pre : List IROpcode) (L : LoopLocals) :
    (locals_after pre L).lastmethod =
      match pre.getLast? with
      | some prev => prev.method
      | none => L.lastmethod := by
  rcases List.eq_nil_or_concat pre with h | ⟨pre2, prev, h⟩
  · subst h
    rfl
  · subst h
    rw [List.concat_eq_append, locals_after_snoc]
    simp [LoopLocals.leave]

theorem write_oso_code_cons_some_snd {env : Env} {c : OSLCompilerImpl} {idx : Nat}
    {op : IROpcode} {L : LoopLocals} {d : Emit × OSLCompilerImpl} (rest : List IROpcode)
    (h : write_oso_source_comment env c idx op (L.enter op).lastfile (L.enter op).lastline =
      some d) :
    (write_oso_code env (op :: rest) idx L.lastline L.lastfile L.lastmethod c).2 =
      (write_oso_code env rest (idx + 1) (L.leave op).lastline (L.leave op).lastfile
        (L.leave op).lastmethod d.2).2 := by
  have h2 : write_oso_source_comment env c idx op
      (if L.lastmethod ≠ op.method then none else L.lastfile)
      (if L.lastmethod ≠ op.method then -1 else L.lastline) = some d := h
  conv_lhs => unfold write_oso_code
  simp only [h2]
  rfl

/-- What the loop writes for a list `pre ++ rest` is what it writes for `pre`, followed by what
it writes for `rest` with the locals and the cursor as they stand after `pre`. -/
theorem write_oso_code_append (env : Env) (pre rest : List IROpcode) (idx : Nat)
    (L : LoopLocals) (c : OSLCompilerImpl) :
    (write_oso_code env (pre ++ rest) idx L.lastline L.lastfile L.lastmethod c).1 =
      (write_oso_code env pre idx L.lastline L.lastfile L.lastmethod c).1.seq
        (write_oso_code env rest (idx + pre.length) (locals_after pre L).lastline
          (locals_after pre L).lastfile (locals_after pre L).lastmethod
          (write_oso_code env pre idx L.lastline L.lastfile L.lastmethod c).2).1 := by
  induction pre generalizing idx L c with
  | nil =>
    simp only [List.nil_append, locals_after, List.length_nil, Nat.add_zero]
    rw [show write_oso_code env [] idx L.lastline L.lastfile L.lastmethod c = (Emit.nil, c)
      from rfl, Emit.nil_seq]
  | cons p pre ih =>
    simp only [List.cons_append, locals_after, List.length_cons]
    cases hd : write_oso_source_comment env c idx p (L.enter p).lastfile
        (L.enter p).lastline with
    | none =>
      rw [write_oso_code_cons_none _ hd, write_oso_code_cons_none _ hd]
      exact (Emit.seq_of_aborted (by simp [Emit.seq_aborted, Emit.abort])).symm
    | some d =>
      rw [write_oso_code_cons_some _ hd, write_oso_code_cons_some _ hd,
        write_oso_code_cons_some_snd _ hd, ih (idx + 1) (L.leave p) d.2]
      have hidx : idx + 1 + pre.length = idx + (pre.length + 1) := by omega
      rw [hidx]
      simp only [Emit.seq_assoc]

/-- What the loop writes for a list that starts with the instruction `op`: the label of the
block when `lastmethod` is not the block of `op`, the source comment of debug mode, the line
of the instruction, and what the loop writes for the rest of the list. -/
theorem write_oso_code_head (env : Env) (op : IROpcode) (post : List IROpcode) (idx : Nat)
    (L : LoopLocals) (c : OSLCompilerImpl) :
    ∃ (cm : Emit) (c2 : OSLCompilerImpl),
      (write_oso_code env (op :: post) idx L.lastline L.lastfile L.lastmethod c).1 =
        (code_label L.lastmethod op).seq (cm.seq
          ((write_oso_op op (L.enter op).lastfile (L.enter op).lastline).seq
            (write_oso_code env post (idx + 1) (L.leave op).lastline (L.leave op).lastfile
              (L.leave op).lastmethod c2).1)) ∧
      same_but_cursor c c2 ∧
      (cm = Emit.nil ∨ cm = Emit.abort ∨
        ∃ nd src, op.node = some nd ∧ cm = source_comment nd src) ∧
      (c.m_debug = false → cm = Emit.nil) := by
  cases hd : write_oso_source_comment env c idx op (L.enter op).lastfile
      (L.enter op).lastline with
  | none =>
    refine ⟨Emit.abort, c, ?_, same_but_cursor_refl c, Or.inr (Or.inl rfl), fun hdbg => ?_⟩
    · rw [write_oso_code_cons_none post hd, Emit.abort_seq]
    · exfalso
      unfold write_oso_source_comment at hd
      simp [hdbg] at hd
  | some d =>
    obtain ⟨hform, hnd⟩ := write_oso_source_comment_form hd
    refine ⟨d.1, d.2, write_oso_code_cons_some post hd, write_oso_source_comment_same hd, ?_,
      hnd⟩
    rcases hform with h | h
    · exact Or.inl h
    · exact Or.inr (Or.inr h)

/-- Without debug mode the loop has no fatal assertion to run into. -/
theorem write_oso_code_ok (env : Env) (ops : List IROpcode) (idx : Nat) (L : LoopLocals)
    (c : OSLCompilerImpl) (hdbg : c.m_debug = false) :
    (write_oso_code env ops idx L.lastline L.lastfile L.lastmethod c).1.aborted = false := by
  induction ops generalizing idx L c with
  | nil =>
    unfold write_oso_code
    rfl
  | cons op rest ih =>
    obtain ⟨cm, c2, heq, hsame, _, hcm⟩ := write_oso_code_head env op rest idx L c
    have h2 : c2.m_debug = false := by
      rw [hsame.2.2.2.2.1]
      exact hdbg
    rw [heq, Emit.seq_aborted, Emit.seq_aborted, Emit.seq_aborted, hcm hdbg,
      ih (idx + 1) (L.leave op) c2 h2, write_oso_op_eq, code_label_aborted]
    rfl

/-- Unless the loop aborted, the label of the block it stands in after the list `pre` is in
what it wrote for `pre`, or that block is the one the loop started with. -/
theorem write_oso_code_labelled (env : Env) (pre : List IROpcode) (idx : Nat) (L : LoopLocals)
    (c : OSLCompilerImpl)
    (hok : (write_oso_code env pre idx L.lastline L.lastfile L.lastmethod c).1.aborted =
      false) :
    label_tokens (locals_after pre L).lastmethod <:+:
        (write_oso_code env pre idx L.lastline L.lastfile L.lastmethod c).1.text ∨
      (locals_after pre L).lastmethod = L.lastmethod := by
  induction pre generalizing idx L c with
  | nil => exact Or.inr rfl
  | cons p pre ih =>
    obtain ⟨cm, c2, heq, _, _, _⟩ := write_oso_code_head env p pre idx L c
    rw [heq] at hok ⊢
    simp only [Emit.seq_aborted, Bool.or_eq_false_iff] at hok
    obtain ⟨hla, hca, hoa, hrest⟩ := hok
    simp only [locals_after]
    rw [Emit.seq_text_of_ok _ hla, Emit.seq_text_of_ok _ hca, Emit.seq_text_of_ok _ hoa]
    rcases ih (idx + 1) (L.leave p) c2 hrest with h | h
    · left
      obtain ⟨a, b, hab⟩ := h
      refine ⟨(code_label L.lastmethod p).text ++ (cm.text ++
        ((write_oso_op p (L.enter p).lastfile (L.enter p).lastline).text ++ a)), b, ?_⟩
      rw [← hab]
      simp only [List.append_assoc]
    · have hm : (locals_after pre (L.leave p)).lastmethod = p.method := h
      rcases code_label_cases L.lastmethod p with ⟨_, hl⟩ | ⟨hl, _⟩
      · left
        rw [hm, hl]
        exact (List.prefix_append _ _).isInfix
      · right
        rw [hm, hl]

theorem locals_after_start_lastmethod (pre : List IROpcode) :
    (locals_after pre LoopLocals.start).lastmethod = spec_lastmethod pre :=
  locals_after_lastmethod pre LoopLocals.start

theorem last_source_ref_snoc (pre : List IROpcode) (prev op : IROpcode) :
    last_source_ref (pre ++ [prev]) op =
      if prev.method = op.method then
        match prev.node with
        | some pn => some pn
        | none => last_source_ref pre prev
      else none := by
  unfold last_source_ref block_before
  rw [List.reverse_append, List.reverse_singleton, List.singleton_append]
  by_cases hm : prev.method = op.method
  · rw [List.takeWhile_cons_of_pos (by simpa using hm)]
    simp only [hm, if_true]
    cases hn : prev.node with
    | none => rw [List.filterMap_cons_none hn]
    | some pn => rw [List.filterMap_cons_some hn, List.head?_cons]
  · rw [List.takeWhile_cons_of_neg (by simpa using hm)]
    simp [hm]

/-- The locals with which the loop writes the instruction after the list `pre` are the file
and the line of the most recent instruction of its block with a source reference. -/
theorem locals_enter_spec (pre : List IROpcode) (op : IROpcode) :
    ((locals_after pre LoopLocals.start).enter op).lastfile = spec_lastfile pre op ∧
    ((locals_after pre LoopLocals.start).enter op).lastline = spec_lastline pre op := by
  induction pre using List.reverseRecOn generalizing op with
  | nil =>
    unfold spec_lastfile spec_lastline last_source_ref block_before
    simp [locals_after, LoopLocals.enter, LoopLocals.start]
  | append_singleton pre prev ih =>
    rw [locals_after_snoc]
    unfold spec_lastfile spec_lastline
    rw [last_source_ref_snoc]
    by_cases hm : prev.method = op.method
    · cases hn : prev.node with
      | some pn => simp [LoopLocals.enter, LoopLocals.leave, hm, hn]
      | none =>
        have h := ih prev
        unfold spec_lastfile spec_lastline at h
        simp only [LoopLocals.enter, LoopLocals.leave, hm, hn, if_true, ne_eq,
          not_true_eq_false, if_false] at h ⊢
        exact h
    · simp [LoopLocals.enter, LoopLocals.leave, hm]

theorem locals_leave_spec (pre : List IROpcode) (op : IROpcode) :
    ((locals_after pre LoopLocals.start).leave op).lastline =
      (match op.node with
        | some nd => nd.sourceline
        | none => spec_lastline pre op) ∧
    ((locals_after pre LoopLocals.start).leave op).lastfile =
      (match op.node with
        | some nd => nd.sourcefile
        | none => spec_lastfile pre op) ∧
    ((locals_after pre LoopLocals.start).leave op).lastmethod = op.method := by
  obtain ⟨h1, h2⟩ := locals_enter_spec pre op
  unfold LoopLocals.leave
  cases op.node with
  | some nd => exact ⟨rfl, rfl, rfl⟩
  | none => exact ⟨h2, h1, rfl⟩

/-- The text of the loop around the instruction `op` of the list `pre ++ op :: post`: what
the loop writes for `pre`, the label of the block of `op` when the block of the instruction
before is another one, the source comment of debug mode, the line of `op` with the file and
line of the most recent source reference in its block, and what the loop writes for `post`
from there. -/
theorem write_oso_code_at (env : Env) (c : OSLCompilerImpl) (pre : List IROpcode)
    (op : IROpcode) (post : List IROpcode) :
    ∃ (cm : Emit) (c2 : OSLCompilerImpl),
      (write_oso_code env (pre ++ op :: post) 0 (-1) none uninitialized_method c).1 =
        (write_oso_code env pre 0 (-1) none uninitialized_method c).1.seq
          ((code_label (spec_lastmethod pre) op).seq (cm.seq
            ((write_oso_op op (spec_lastfile pre op) (spec_lastline pre op)).seq
              (write_oso_code env post (pre.length + 1)
                (match op.node with
                  | some nd => nd.sourceline
                  | none => spec_lastline pre op)
                (match op.node with
                  | some nd => nd.sourcefile
                  | none => spec_lastfile pre op)
                op.method c2).1))) ∧
      same_but_cursor c c2 ∧
      (cm = Emit.nil ∨ cm = Emit.abort ∨
        ∃ nd src, op.node = some nd ∧ cm = source_comment nd src) ∧
      (c.m_debug = false → cm = Emit.nil) := by
  have happ : (write_oso_code env (pre ++ op :: post) 0 (-1) none uninitialized_method c).1 =
      (write_oso_code env pre 0 (-1) none uninitialized_method c).1.seq
        (write_oso_code env (op :: post) (0 + pre.length)
          (locals_after pre LoopLocals.start).lastline
          (locals_after pre LoopLocals.start).lastfile
          (locals_after pre LoopLocals.start).lastmethod
          (write_oso_code env pre 0 (-1) none uninitialized_method c).2).1 :=
    write_oso_code_append env pre (op :: post) 0 LoopLocals.start c
  have hsame1 : same_but_cursor c
      (write_oso_code env pre 0 (-1) none uninitialized_method c).2 :=
    write_oso_code_same env pre 0 (-1) none uninitialized_method c
  obtain ⟨cm, c2, heq, hsame2, hform, hcm⟩ := write_oso_code_head env op post (0 + pre.length)
    (locals_after pre LoopLocals.start)
    (write_oso_code env pre 0 (-1) none uninitialized_method c).2
  obtain ⟨he1, he2⟩ := locals_enter_spec pre op
  obtain ⟨hl1, hl2, hl3⟩ := locals_leave_spec pre op
  rw [he1, he2, hl1, hl2, hl3, locals_after_start_lastmethod, Nat.zero_add] at heq
  rw [Nat.zero_add, locals_after_start_lastmethod] at happ
  refine ⟨cm, c2, ?_, same_but_cursor_trans hsame1 hsame2, hform, fun hdbg => hcm ?_⟩
  · rw [happ, heq]
  · rw [hsame1.2.2.2.2.1]
    exact hdbg

/-- Without debug mode, what the loop writes for the instructions `rest` that follow the
instructions `pre` is the text the specification words. -/
theorem write_oso_code_text_eq (env : Env) (pre rest : List IROpcode) (idx : Nat)
    (c : OSLCompilerImpl) (hdbg : c.m_debug = false) :
    (write_oso_code env rest idx (locals_after pre LoopLocals.start).lastline
      (locals_after pre LoopLocals.start).lastfile
      (locals_after pre LoopLocals.start).lastmethod c).1 = oso (spec_code_text pre rest) := by
  induction rest generalizing pre idx c with
  | nil => rfl
  | cons op rest ih =>
    obtain ⟨cm, c2, heq, hsame, _, hcm⟩ :=
      write_oso_code_head env op rest idx (locals_after pre LoopLocals.start) c
    have h2 : c2.m_debug = false := by
      rw [hsame.2.2.2.2.1]
      exact hdbg
    obtain ⟨he1, he2⟩ := locals_enter_spec pre op
    rw [heq, hcm hdbg, ← locals_after_snoc, ih (pre ++ [op]) (idx + 1) c2 h2, he1, he2,
      locals_after_start_lastmethod, write_oso_op_eq, Emit.nil_seq]
    unfold code_label
    conv_rhs => unfold spec_code_text
    by_cases hm : spec_lastmethod pre = op.method
    · have hm2 : ¬ (op.method ≠ spec_lastmethod pre) := fun h => h hm.symm
      simp [hm, Emit.seq, oso, Emit.nil]
    · have hm2 : op.method ≠ spec_lastmethod pre := fun h => hm h.symm
      simp [hm, hm2, Emit.seq, oso, label_tokens]

/-- The text that the loop writes for `example_gap_block` without debug mode: the label of
the block, `add` with both hints, and `nop` and `mul` with none, `mul` coming from the file
and line of `add`. -/
theorem example_gap_block_text :
    (write_oso_code example_env example_gap_block 0 (-1) none uninitialized_method
      example_compiler).1 =
      oso [Tok.lit "code ", Tok.fmt_s (some "main"), Tok.lit "\n",
       Tok.lit "\t", Tok.fmt_s (some "add"),
       Tok.fmt_c tab, Tok.lit "%filename\x7b\"", Tok.fmt_s (some "s.osl"), Tok.lit "\"\x7d",
       Tok.fmt_c space, Tok.lit "%line\x7b", Tok.fmt_d 3, Tok.lit "\x7d", Tok.lit "\n",
       Tok.lit "\t", Tok.fmt_s (some "nop"), Tok.lit "\n",
       Tok.lit "\t", Tok.fmt_s (some "mul"), Tok.lit "\n"] := by
  decide

/-- C12 (as amended): what the loop of `write_oso_file` writes for the list
`pre ++ op :: post` is what it writes for `pre`, then the label `code <block>` of `op` if and
only if the block of `op` differs from the block of the instruction before it, where the
first instruction is compared with the name `___uninitialized___`, then the source comment of
debug mode, then the line of `op`, then what it writes for `post`.  So, unless the loop
aborted earlier, every instruction whose block is not named `___uninitialized___` is preceded
in the output by a label naming its block; and without debug mode the whole text is the one of
`spec_code_text`, with a label before exactly the instructions whose block differs from the
block of the instruction before. -/
theorem C12_code_label_iff (env : Env) (c : OSLCompilerImpl) (pre : List IROpcode)
    (op : IROpcode) (post : List IROpcode) :
    (∃ (lab cm : Emit) (c2 : OSLCompilerImpl),
      (write_oso_code env (pre ++ op :: post) 0 (-1) none uninitialized_method c).1 =
        (write_oso_code env pre 0 (-1) none uninitialized_method c).1.seq
          (lab.seq (cm.seq
            ((write_oso_op op (spec_lastfile pre op) (spec_lastline pre op)).seq
              (write_oso_code env post (pre.length + 1)
                (match op.node with
                  | some nd => nd.sourceline
                  | none => spec_lastline pre op)
                (match op.node with
                  | some nd => nd.sourcefile
                  | none => spec_lastfile pre op)
                op.method c2).1))) ∧
      same_but_cursor c c2 ∧
      ((lab = oso (label_tokens op.method) ∧
          op.method ≠ (match pre.getLast? with
            | some prev => prev.method
            | none => uninitialized_method)) ∨
       (lab = Emit.nil ∧
          op.method = (match pre.getLast? with
            | some prev => prev.method
            | none => uninitialized_method))) ∧
      (cm = Emit.nil ∨ cm = Emit.abort ∨
        ∃ nd src, op.node = some nd ∧ cm = source_comment nd src) ∧
      (c.m_debug = false → cm = Emit.nil ∧
        (write_oso_code env pre 0 (-1) none uninitialized_method c).1.aborted = false) ∧
      ((write_oso_code env pre 0 (-1) none uninitialized_method c).1.aborted = false →
        op.method ≠ uninitialized_method →
        label_tokens op.method <:+:
          ((write_oso_code env pre 0 (-1) none uninitialized_method c).1.seq lab).text)) ∧
    (c.m_debug = false →
      (write_oso_code env (pre ++ op :: post) 0 (-1) none uninitialized_method c).1 =
        oso (spec_code_text [] (pre ++ op :: post))) := by
  refine ⟨?_, fun hdbg => write_oso_code_text_eq env [] (pre ++ op :: post) 0 c hdbg⟩
  obtain ⟨cm, c2, heq, hsame, hform, hcm⟩ := write_oso_code_at env c pre op post
  have hlast : spec_lastmethod pre = (match pre.getLast? with
      | some prev => prev.method
      | none => uninitialized_method) := rfl
  refine ⟨code_label (spec_lastmethod pre) op, cm, c2, heq, hsame, ?_, hform,
    fun hdbg => ⟨hcm hdbg, write_oso_code_ok env pre 0 LoopLocals.start c hdbg⟩, ?_⟩
  · rcases code_label_cases (spec_lastmethod pre) op with ⟨h1, h2⟩ | ⟨h1, h2⟩
    · refine Or.inl ⟨h2, ?_⟩
      rw [← hlast]
      exact fun h => h1 h.symm
    · refine Or.inr ⟨h2, ?_⟩
      rw [← hlast]
      exact h1.symm
  · intro hok hne
    rw [Emit.seq_text_of_ok _ hok]
    rcases code_label_cases (spec_lastmethod pre) op with ⟨_, h2⟩ | ⟨h1, _⟩
    · rw [h2]
      exact (List.suffix_append _ _).isInfix
    · rcases write_oso_code_labelled env pre 0 LoopLocals.start c hok with h | h
      · rw [locals_after_start_lastmethod, h1] at h
        obtain ⟨a, b, hab⟩ := h
        have hab2 : a ++ label_tokens op.method ++ b =
            (write_oso_code env pre 0 (-1) none uninitialized_method c).1.text := hab
        refine ⟨a, b ++ (code_label (spec_lastmethod pre) op).text, ?_⟩
        rw [← hab2]
        simp only [List.append_assoc]
      · rw [locals_after_start_lastmethod, h1] at h
        exact absurd h hne

/-- C12 (as stated) fails: the only, hence first, instruction of this list lies in a block
named `___uninitialized___`, and `write_oso_file` writes the header, the instruction and the
end marker, with no label before the instruction. -/
theorem C12_code_label_counterexample :
    (example_compiler_sentinel.write_oso_file example_env "s.oso").text =
      [Tok.lit "OpenShadingLanguage 0.0\n", Tok.lit "# Compiled by oslc FIXME-VERSION\n",
       Tok.fmt_s (some "surface"), Tok.lit " ", Tok.fmt_s (some "s"), Tok.lit "\n",
       Tok.lit "\t", Tok.fmt_s (some "nop"), Tok.lit "\n", Tok.lit "\tend\n"] := by
  decide

theorem spec_hints_filename (op : IROpcode) (lastfile : ustring) (lastline : Int) :
    Tok.lit "%filename\x7b\"" ∈ spec_hints op lastfile lastline ↔
      ∃ nd, op.node = some nd ∧ nd.sourcefile ≠ lastfile := by
  unfold spec_hints
  cases op.node with
  | none => simp
  | some nd => by_cases hf : nd.sourcefile = lastfile <;> simp [hf]

theorem spec_hints_line (op : IROpcode) (lastfile : ustring) (lastline : Int) :
    Tok.lit "%line\x7b" ∈ spec_hints op lastfile lastline ↔
      ∃ nd, op.node = some nd ∧ nd.sourceline ≠ lastline := by
  unfold spec_hints
  cases op.node with
  | none => simp
  | some nd => by_cases hl : nd.sourceline = lastline <;> simp [hl]

/-- C11 (as amended): what the loop of `write_oso_file` writes for the list
`pre ++ op :: post` is what it writes for `pre`, then the label and the source comment that
go before `op`, then the line of `op` with the hints of
`spec_hints op (spec_lastfile pre op) (spec_lastline pre op)`, then what it writes for `post`:
`%filename` exactly when `op` has a source reference whose file differs from `spec_lastfile`,
`%line` exactly when its line differs from `spec_lastline`.  The two are the file and line of
the most recent instruction before `op`, in the code block of `op`, that has a source
reference: the null name and -1 for the first instruction and for an instruction that starts
a new block, whatever came before; the file and line of the instruction before, when that one
is in the same block and has a source reference; and what that instruction was compared with,
when it is in the same block and has none.  So an instruction in the same block and with the
same file and line as the instruction before it carries no hint.  Without debug mode the whole
text is the one of `spec_code_text`. -/
theorem C11_hints_on_change (env : Env) (c : OSLCompilerImpl) (pre : List IROpcode)
    (op : IROpcode) (post : List IROpcode) :
    (∃ (cm : Emit) (c2 : OSLCompilerImpl),
      (write_oso_code env (pre ++ op :: post) 0 (-1) none uninitialized_method c).1 =
        (write_oso_code env pre 0 (-1) none uninitialized_method c).1.seq
          ((code_label (spec_lastmethod pre) op).seq (cm.seq
            ((oso (spec_instruction_line op
                (spec_hints op (spec_lastfile pre op) (spec_lastline pre op)))).seq
              (write_oso_code env post (pre.length + 1)
                (match op.node with
                  | some nd => nd.sourceline
                  | none => spec_lastline pre op)
                (match op.node with
                  | some nd => nd.sourcefile
                  | none => spec_lastfile pre op)
                op.method c2).1))) ∧
      same_but_cursor c c2 ∧
      (cm = Emit.nil ∨ cm = Emit.abort ∨
        ∃ nd src, op.node = some nd ∧ cm = source_comment nd src) ∧
      (c.m_debug = false → cm = Emit.nil ∧
        (write_oso_code env pre 0 (-1) none uninitialized_method c).1.aborted = false)) ∧
    (c.m_debug = false →
      (write_oso_code env (pre ++ op :: post) 0 (-1) none uninitialized_method c).1 =
        oso (spec_code_text [] (pre ++ op :: post))) ∧
    (Tok.lit "%filename\x7b\"" ∈ spec_hints op (spec_lastfile pre op) (spec_lastline pre op) ↔
      ∃ nd, op.node = some nd ∧ nd.sourcefile ≠ spec_lastfile pre op) ∧
    (Tok.lit "%line\x7b" ∈ spec_hints op (spec_lastfile pre op) (spec_lastline pre op) ↔
      ∃ nd, op.node = some nd ∧ nd.sourceline ≠ spec_lastline pre op) ∧
    (pre = [] → spec_lastfile pre op = none ∧ spec_lastline pre op = -1) ∧
    (∀ pre2 prev, pre = pre2 ++ [prev] → op.method ≠ prev.method →
      spec_lastfile pre op = none ∧ spec_lastline pre op = -1) ∧
    (∀ pre2 prev pn, pre = pre2 ++ [prev] → op.method = prev.method → prev.node = some pn →
      spec_lastfile pre op = pn.sourcefile ∧ spec_lastline pre op = pn.sourceline) ∧
    (∀ pre2 prev, pre = pre2 ++ [prev] → op.method = prev.method → prev.node = none →
      spec_lastfile pre op = spec_lastfile pre2 prev ∧
      spec_lastline pre op = spec_lastline pre2 prev) ∧
    (∀ pre2 prev pn nd, pre = pre2 ++ [prev] → op.method = prev.method →
      prev.node = some pn → op.node = some nd →
      nd.sourcefile = pn.sourcefile → nd.sourceline = pn.sourceline →
      spec_hints op (spec_lastfile pre op) (spec_lastline pre op) = []) := by
  have hsome : ∀ pre2 prev pn, pre = pre2 ++ [prev] → op.method = prev.method →
      prev.node = some pn →
      spec_lastfile pre op = pn.sourcefile ∧ spec_lastline pre op = pn.sourceline := by
    intro pre2 prev pn hpre hm hn
    unfold spec_lastfile spec_lastline
    rw [hpre, last_source_ref_snoc]
    simp [hm, hn]
  refine ⟨?_, fun hdbg => write_oso_code_text_eq env [] (pre ++ op :: post) 0 c hdbg,
    spec_hints_filename op _ _, spec_hints_line op _ _, ?_, ?_, hsome, ?_, ?_⟩
  · obtain ⟨cm, c2, heq, hsame, hform, hcm⟩ := write_oso_code_at env c pre op post
    rw [write_oso_op_eq] at heq
    exact ⟨cm, c2, heq, hsame, hform,
      fun hdbg => ⟨hcm hdbg, write_oso_code_ok env pre 0 LoopLocals.start c hdbg⟩⟩
  · intro hpre
    rw [hpre]
    exact ⟨rfl, rfl⟩
  · intro pre2 prev hpre hm
    have hm2 : ¬ (prev.method = op.method) := fun e => hm e.symm
    unfold spec_lastfile spec_lastline
    rw [hpre, last_source_ref_snoc]
    simp [hm2]
  · intro pre2 prev hpre hm hn
    unfold spec_lastfile spec_lastline
    rw [hpre, last_source_ref_snoc]
    simp [hm, hn]
  · intro pre2 prev pn nd hpre hm hpn hnd hf hl
    obtain ⟨h1, h2⟩ := hsome pre2 prev pn hpre hm hpn
    rw [h1, h2]
    simp [spec_hints, hnd, hf, hl]

/-- C11 (as stated) fails: the two instructions come from the same file and line, `s.osl:3`,
and lie in two code blocks; the second one is written with both hints again, because the
label of its block resets the file and the line the hints are compared with. -/
theorem C11_hints_counterexample :
    (example_compiler_two_blocks.write_oso_file example_env "s.oso").text =
      [Tok.lit "OpenShadingLanguage 0.0\n", Tok.lit "# Compiled by oslc FIXME-VERSION\n",
       Tok.fmt_s (some "surface"), Tok.lit " ", Tok.fmt_s (some "s"), Tok.lit "\n",
       Tok.lit "code ", Tok.fmt_s (some "a"), Tok.lit "\n",
       Tok.lit "\t", Tok.fmt_s (some "nop"),
       Tok.fmt_c tab, Tok.lit "%filename\x7b\"", Tok.fmt_s (some "s.osl"), Tok.lit "\"\x7d",
       Tok.fmt_c space, Tok.lit "%line\x7b", Tok.fmt_d 3, Tok.lit "\x7d", Tok.lit "\n",
       Tok.lit "code ", Tok.fmt_s (some "b"), Tok.lit "\n",
       Tok.lit "\t", Tok.fmt_s (some "nop"),
       Tok.fmt_c tab, Tok.lit "%filename\x7b\"", Tok.fmt_s (some "s.osl"), Tok.lit "\"\x7d",
       Tok.fmt_c space, Tok.lit "%line\x7b", Tok.fmt_d 3, Tok.lit "\x7d", Tok.lit "\n",
       Tok.lit "\tend\n"] := by
  decide

/-! ## The compiled unit of a minimal shader -/

theorem foldl_insert_symtab (l : List Symbol) (c : OSLCompilerImpl) :
    l.foldl OSLCompilerImpl.insert c = { c with m_symtab := c.m_symtab ++ l } := by
  induction l generalizing c with
  | nil =>
    cases c
    simp
  | cons x rest ih =>
    rw [List.foldl_cons, ih]
    simp [OSLCompilerImpl.insert]

theorem initialize_globals_eq (c : OSLCompilerImpl) :
    c.initialize_globals =
      { c with m_symtab := c.m_symtab ++
          globals.map (fun g => Symbol.create g.1 g.2 SymType.SymTypeGlobal) } := by
  unfold OSLCompilerImpl.initialize_globals
  rw [← foldl_insert_symtab, List.foldl_map]

theorem minimal_shader_unit_symtab (funcs : List Symbol) (name : ustring) (p : Symbol) :
    (minimal_shader_unit funcs name p).m_symtab =
      globals.map (fun g => Symbol.create g.1 g.2 SymType.SymTypeGlobal) ++ funcs ++ [p] := by
  unfold minimal_shader_unit OSLCompilerImpl.ctor OSLCompilerImpl.initialize_builtin_funcs
  rw [foldl_insert_symtab, initialize_globals_eq]
  simp [OSLCompilerImpl.insert]

theorem write_oso_records_globals :
    write_oso_records (globals.map (fun g => Symbol.create g.1 g.2 SymType.SymTypeGlobal)) =
      oso (globals.flatMap global_record) := by
  decide

theorem minimal_shader_unit_params (funcs : List Symbol) (name : ustring) (p : Symbol)
    (hfuncs : ∀ f ∈ funcs, f.symtype = SymType.SymTypeFunction)
    (hp : p.symtype = SymType.SymTypeParam) :
    write_oso_params (minimal_shader_unit funcs name p).m_symtab =
      write_oso_records [p] ∧
    write_oso_nonparams (minimal_shader_unit funcs name p).m_symtab =
      write_oso_records
        (globals.map (fun g => Symbol.create g.1 g.2 SymType.SymTypeGlobal)) := by
  rw [write_oso_params_eq_records, write_oso_nonparams_eq_records,
    minimal_shader_unit_symtab]
  have hg1 : (globals.map (fun g => Symbol.create g.1 g.2 SymType.SymTypeGlobal)).filter
      (fun s => s.symtype.is_param_kind) = [] := by
    rw [List.filter_eq_nil_iff]
    intro s hs
    simp only [List.mem_map] at hs
    obtain ⟨g, _, rfl⟩ := hs
    show ¬ (SymType.is_param_kind SymType.SymTypeGlobal = true)
    decide
  have hg2 : (globals.map (fun g => Symbol.create g.1 g.2 SymType.SymTypeGlobal)).filter
      (fun s => s.symtype.is_nonparam_kind) =
      globals.map (fun g => Symbol.create g.1 g.2 SymType.SymTypeGlobal) := by
    rw [List.filter_eq_self]
    intro s hs
    simp only [List.mem_map] at hs
    obtain ⟨g, _, rfl⟩ := hs
    rfl
  have hf1 : funcs.filter (fun s => s.symtype.is_param_kind) = [] := by
    rw [List.filter_eq_nil_iff]
    intro s hs
    rw [hfuncs s hs]
    decide
  have hf2 : funcs.filter (fun s => s.symtype.is_nonparam_kind) = [] := by
    rw [List.filter_eq_nil_iff]
    intro s hs
    rw [hfuncs s hs]
    decide
  simp only [List.filter_append, hg1, hg2, hf1, hf2]
  simp [List.filter, hp, SymType.is_param_kind, SymType.is_nonparam_kind]

theorem minimal_shader_unit_rest (funcs : List Symbol) (name : ustring) (p : Symbol) :
    (minimal_shader_unit funcs name p).m_osofile = false ∧
    (minimal_shader_unit funcs name p).m_ircode = [] ∧
    write_oso_header (minimal_shader_unit funcs name p) =
      oso [Tok.lit "OpenShadingLanguage 0.0\n", Tok.lit "# Compiled by oslc FIXME-VERSION\n",
        Tok.fmt_s (some "surface"), Tok.lit " ", Tok.fmt_s name, Tok.lit "\n"] := by
  refine ⟨?_, rfl, rfl⟩
  unfold minimal_shader_unit OSLCompilerImpl.ctor OSLCompilerImpl.initialize_builtin_funcs
  rw [foldl_insert_symtab, initialize_globals_eq]
  rfl

/-- C13 (amended): the object text of the compiled unit of a minimal surface shader with one
parameter and no instructions, made by a freshly constructed compiler whose built-in symbols
are functions, is the header, the record of the parameter, the records of the nineteen shader
globals that the constructor inserted, in the order of the table `globals`, and the end
marker; the run does not abort, and no code label stands between the records and the end
marker. -/
theorem C13_minimal_shader_text (env : Env) (funcs : List Symbol) (name : ustring)
    (p : Symbol) (out : String)
    (hfuncs : ∀ f ∈ funcs, f.symtype = SymType.SymTypeFunction)
    (hp : p.symtype = SymType.SymTypeParam)
    (hrec : (write_oso_symbol p).aborted = false)
    (hopen : env.fopen_w out = true) :
    ((minimal_shader_unit funcs name p).write_oso_file env out).aborted = false ∧
    ((minimal_shader_unit funcs name p).write_oso_file env out).text =
      [Tok.lit "OpenShadingLanguage 0.0\n", Tok.lit "# Compiled by oslc FIXME-VERSION\n",
        Tok.fmt_s (some "surface"), Tok.lit " ", Tok.fmt_s name, Tok.lit "\n"] ++
      (write_oso_symbol p).text ++ globals.flatMap global_record ++ [Tok.lit "\tend\n"] := by
  obtain ⟨hoso, hir, hhead⟩ := minimal_shader_unit_rest funcs name p
  obtain ⟨hpar, hnon⟩ := minimal_shader_unit_params funcs name p hfuncs hp
  rw [write_oso_file_aborted_eq, write_oso_file_text_eq]
  simp only [hoso, hopen, Bool.false_eq_true, Bool.true_eq_false, if_false]
  rw [write_oso_body_fst]
  simp only [write_oso_header_same]
  rw [hhead, hpar, hnon, hir, write_oso_records_globals]
  simp only [write_oso_code, write_oso_records]
  simp [Emit.seq_text, Emit.seq_aborted, hrec, oso, Emit.nil]

/-- C13 (witness): the minimal shader `surface s (float Kd = 1)` with one built-in
function. -/
theorem C13_minimal_shader_text_witness :
    ((minimal_shader_unit [Symbol.create "sin" ⟨.float, 0, false⟩ SymType.SymTypeFunction]
        (some "s") example_param).write_oso_file example_env "s.oso").aborted = false ∧
    ((minimal_shader_unit [Symbol.create "sin" ⟨.float, 0, false⟩ SymType.SymTypeFunction]
        (some "s") example_param).write_oso_file example_env "s.oso").text =
      [Tok.lit "OpenShadingLanguage 0.0\n", Tok.lit "# Compiled by oslc FIXME-VERSION\n",
        Tok.fmt_s (some "surface"), Tok.lit " ", Tok.fmt_s (some "s"), Tok.lit "\n"] ++
      (write_oso_symbol example_param).text ++ globals.flatMap global_record ++
        [Tok.lit "\tend\n"] :=
  C13_minimal_shader_text example_env
    [Symbol.create "sin" ⟨.float, 0, false⟩ SymType.SymTypeFunction] (some "s") example_param
    "s.oso"
    (by
      intro f hf
      rw [List.mem_singleton] at hf
      rw [hf]
      rfl)
    rfl (by decide) rfl

/-- C13 (counterexample): the object text of the minimal shader `surface s (float Kd = 1)`
holds twenty symbol records, one of the parameter and nineteen of shader globals, the first of
them `P`, and no code label. -/
theorem C13_minimal_shader_counterexample :
    ((minimal_shader_unit [] (some "s") example_param).write_oso_file example_env
        "s.oso").aborted = false ∧
    (((minimal_shader_unit [] (some "s") example_param).write_oso_file example_env
        "s.oso").text.filter
          (fun t => match t with | Tok.shortname _ => true | _ => false)).length = 20 ∧
    ((minimal_shader_unit [] (some "s") example_param).write_oso_file example_env
        "s.oso").text.count (Tok.shortname SymType.SymTypeGlobal) = 19 ∧
    global_record ("P", ⟨.point, 0, false⟩) <:+:
      ((minimal_shader_unit [] (some "s") example_param).write_oso_file example_env
        "s.oso").text ∧
    Tok.lit "code " ∉ ((minimal_shader_unit [] (some "s") example_param).write_oso_file
        example_env "s.oso").text := by
  decide

/-! ## Serializing twice, and the cursor after a switch of file -/

/-- C16, the failing input: in debug mode, with one instruction from line 1 of `test.osl`, the
first run of `write_oso_file` writes the comment with the text of that line; the second run
with the same compiler object starts from the cursor the first has left (file `test.osl`, line
1), so its request for line 1 reads nothing and the comment holds what the uninitialized line
buffer holds, here `junk`: the two texts differ. -/
theorem C16_debug_twice_failing :
    (example_compiler_debug.write_oso_file example_env_junk "s.oso").aborted = false ∧
    ((example_compiler_debug.write_oso_file example_env_junk "s.oso").state.write_oso_file
      example_env_junk "s.oso").aborted = false ∧
    (example_compiler_debug.write_oso_file example_env_junk "s.oso").state.m_symtab =
      example_compiler_debug.m_symtab ∧
    (example_compiler_debug.write_oso_file example_env_junk "s.oso").state.m_ircode =
      example_compiler_debug.m_ircode ∧
    Tok.fmt_s (some "a = 1;") ∈
      (example_compiler_debug.write_oso_file example_env_junk "s.oso").text ∧
    Tok.fmt_s (some "junk") ∈
      ((example_compiler_debug.write_oso_file example_env_junk "s.oso").state.write_oso_file
        example_env_junk "s.oso").text ∧
    (example_compiler_debug.write_oso_file example_env_junk "s.oso").text ≠
      ((example_compiler_debug.write_oso_file example_env_junk "s.oso").state.write_oso_file
        example_env_junk "s.oso").text :=
  ⟨by decide, by decide, rfl, rfl, by decide, by decide, by decide⟩

/-- C19, the failing input: after line 1 of `a.osl`, the request for line 2 of `b.osl` opens
`b.osl` but keeps the line count 1 of `a.osl`, reads one line only and returns line 1 of
`b.osl`; the request for line 1 of `b.osl` reads nothing and returns what the uninitialized
line buffer holds, here `junk`. -/
theorem C19_file_switch_failing :
    ∃ c1 c2 c3, example_compiler.retrieve_source example_env_two_files [] (some "a.osl") 1 =
        some ("a1", c1) ∧
      c1.retrieve_source example_env_two_files "junk".toList (some "b.osl") 2 =
        some ("b1", c2) ∧
      c1.retrieve_source example_env_two_files "junk".toList (some "b.osl") 1 =
        some ("junk", c3) ∧
      line_text "b1\nb2\nb3\n".toList 2 = some "b2".toList ∧
      line_text "b1\nb2\nb3\n".toList 1 = some "b1".toList :=
  ⟨_, _, _, rfl, rfl, rfl, by decide, by decide⟩

end OSL
